import Mathlib

/-!
Verification of the audio post-processing chain of the scripture-soaking
content factory (`src/modules/dsp_engine.py`, orchestrated by `src/main.py`).

The embedding models
* pydub `AudioSegment`s at the byte level (raw little-endian PCM data plus
  sample width, frame rate and channel count), including `silent`, addition
  (append with `_sync`), millisecond slicing, `normalize` and `apply_gain`;
* the numpy float buffers of `DSPEngine` as lists of rationals (the usual
  exact-arithmetic reading of IEEE floats);
* the scipy numeric kernels whose sample values are not expressible in
  exact arithmetic (FFT resampling interpolants, the Butterworth/`filtfilt`
  filter response, the random reverb impulse response, `audioop.ratecv`
  interpolants, and the decibel gain factor of `normalize`) as components of
  an abstract `Kernels` record.  Every property proved below — lengths,
  channel layouts, branch/error behaviour, and the wet/dry mixing law — is
  established for an arbitrary choice of these kernels; a default instance
  `K0` is used to obtain closed statements.
-/

set_option autoImplicit false

namespace SoakDSP

/-! ### Integer/byte primitives (numpy `astype`/`tobytes`, `array` parsing) -/

/-- Truncation toward zero, as in a C cast of a double to an integer
(`numpy.astype(np.int32)`, `audioop.mul`). -/
def ratTrunc (q : ℚ) : ℤ :=
  if 0 ≤ q then ⌊q⌋ else ⌈q⌉

/-- Wrap an integer into the two's-complement range of a 32-bit machine word,
as `numpy.astype(np.int32)` does on overflow. -/
def int32wrap (z : ℤ) : ℤ :=
  (z + 2 ^ 31) % 2 ^ 32 - 2 ^ 31

/-- Clamp to the signed range of a `w`-byte sample (`audioop.mul` saturates). -/
def clampW (w : ℕ) (z : ℤ) : ℤ :=
  max (-(2 ^ (8 * w - 1))) (min (2 ^ (8 * w - 1) - 1) z)

/-- The `w` little-endian base-256 digits of a natural number. -/
def bytesOfNat : ℕ → ℕ → List ℕ
  | 0, _ => []
  | w + 1, n => n % 256 :: bytesOfNat w (n / 256)

/-- Recompose a little-endian byte list into a natural number. -/
def natOfBytesLE (bs : List ℕ) : ℕ :=
  bs.foldr (fun b acc => b + 256 * acc) 0

/-- Read a little-endian byte list as a two's-complement signed integer, the
way `array('h', ...)` / `array('i', ...)` parse raw PCM data. -/
def intOfBytesLE (bs : List ℕ) : ℤ :=
  if (natOfBytesLE bs : ℤ) < 2 ^ (8 * bs.length - 1) then (natOfBytesLE bs : ℤ)
  else (natOfBytesLE bs : ℤ) - 2 ^ (8 * bs.length)

/-- The `w` bytes of an integer sample, little-endian two's complement
(the serialization `numpy.ndarray.tobytes` uses on x86). -/
def bytesOfInt (w : ℕ) (z : ℤ) : List ℕ :=
  bytesOfNat w (z % 2 ^ (8 * w)).toNat

/-- Serialize a list of integer samples at width `w`. -/
def toBytes (w : ℕ) : List ℤ → List ℕ
  | [] => []
  | z :: zs => bytesOfInt w z ++ toBytes w zs

/-- Parse exactly `k` samples of width `w` from a byte list. -/
def parseSamplesN (w : ℕ) : ℕ → List ℕ → List ℤ
  | 0, _ => []
  | k + 1, l => intOfBytesLE (l.take w) :: parseSamplesN w k (l.drop w)

/-- Parse a whole byte list into width-`w` samples (`length / w` of them),
mirroring `array.array` construction from raw data. -/
def parseSamples (w : ℕ) (l : List ℕ) : List ℤ :=
  parseSamplesN w (l.length / w) l

/-! ### The pydub `AudioSegment` model -/

/-- A pydub `AudioSegment`: raw little-endian PCM bytes plus metadata. -/
structure AudioSeg where
  data : List ℕ
  sampleWidth : ℕ
  frameRate : ℕ
  channels : ℕ
deriving DecidableEq

/-- Bytes per frame (`sample_width * channels`). -/
def frameWidth (s : AudioSeg) : ℕ := s.sampleWidth * s.channels

/-- Number of frames (`len(raw_data) // frame_width`). -/
def frameCount (s : AudioSeg) : ℕ := s.data.length / frameWidth s

/-- `get_array_of_samples`: the interleaved integer samples. -/
def segSamples (s : AudioSeg) : List ℤ := parseSamples s.sampleWidth s.data

/-- `AudioSegment.max` (via `audioop.max`): the peak absolute sample value. -/
def maxAbs (s : AudioSeg) : ℕ :=
  ((segSamples s).map Int.natAbs).foldr max 0

/-- All data entries are genuine bytes. -/
def ValidBytes (s : AudioSeg) : Prop := ∀ b ∈ s.data, b < 256

/-- Python's `round`: nearest integer, ties to even (used by
`AudioSegment.__len__`). -/
def pyRound (q : ℚ) : ℤ :=
  if q - ⌊q⌋ < 1 / 2 then ⌊q⌋
  else if 1 / 2 < q - ⌊q⌋ then ⌊q⌋ + 1
  else if Even ⌊q⌋ then ⌊q⌋ else ⌊q⌋ + 1

/-- `len(segment)`: duration in milliseconds, `round(1000 * frames / rate)`. -/
def lenMs (s : AudioSeg) : ℤ :=
  pyRound ((1000 * (frameCount s : ℚ)) / (s.frameRate : ℚ))

/-- `AudioSegment.silent(duration, frame_rate)`: 16-bit mono zeros,
`int(frame_rate * duration / 1000)` frames. -/
def silentSeg (durationMs : ℕ) (fr : ℕ) : AudioSeg :=
  ⟨List.replicate (fr * durationMs / 1000 * 2) 0, 2, fr, 1⟩

/-- `AudioSegment.empty()`: no data, width 1, rate 1, mono. -/
def emptySeg : AudioSeg := ⟨[], 1, 1, 1⟩

/-- Duplicate each sample (`audioop.tostereo(data, w, 1, 1)`). -/
def dupEach : List ℤ → List ℤ
  | [] => []
  | a :: r => a :: a :: dupEach r

/-- Average consecutive sample pairs (`audioop.tomono(data, w, 0.5, 0.5)`). -/
def avgPairs (w : ℕ) : List ℤ → List ℤ
  | a :: b :: r => clampW w (ratTrunc ((a + b : ℚ) / 2)) :: avgPairs w r
  | _ => []

/-- `AudioSegment.set_channels` for the mono/stereo cases reached here. -/
def setChannels (s : AudioSeg) (n : ℕ) : AudioSeg :=
  if s.channels = n then s
  else if s.channels = 1 ∧ n = 2 then
    ⟨toBytes s.sampleWidth (dupEach (segSamples s)), s.sampleWidth, s.frameRate, 2⟩
  else if s.channels = 2 ∧ n = 1 then
    ⟨toBytes s.sampleWidth (avgPairs s.sampleWidth (segSamples s)), s.sampleWidth, s.frameRate, 1⟩
  else s

/-- `AudioSegment.set_sample_width` (`audioop.lin2lin`): widening multiplies
samples by `2^(8*Δw)`, narrowing keeps the high bytes (arithmetic shift). -/
def setSampleWidth (s : AudioSeg) (w : ℕ) : AudioSeg :=
  if s.sampleWidth = w then s
  else
    ⟨toBytes w ((segSamples s).map fun z =>
        if s.sampleWidth ≤ w then z * 2 ^ (8 * (w - s.sampleWidth))
        else Int.fdiv z (2 ^ (8 * (s.sampleWidth - w)))),
      w, s.frameRate, s.channels⟩

/-! ### Abstract numeric kernels -/

/-- The scipy/audioop numeric kernels whose sample values involve
transcendental arithmetic (or randomness, for the reverb impulse response)
and therefore stay abstract; all verified properties hold for every choice. -/
structure Kernels where
  /-- value of `scipy.signal.resample(data, num)` at an output index -/
  resampleVal : List ℚ → ℕ → ℕ → ℚ
  /-- value of `filtfilt(b, a, data)` for the 4th-order 4–8 kHz band filter
  designed at a given engine sample rate -/
  filtVal : ℕ → List ℚ → ℕ → ℚ
  /-- the synthetic impulse response `exp(-2 t) * normal(0, 0.1)` -/
  irVal : ℕ → ℚ
  /-- interpolated sample values of `audioop.ratecv` -/
  ratecvVal : ℕ → ℕ → List ℤ → ℕ → ℤ
  /-- the gain factor `db_to_float(ratio_to_db(target_peak / peak))` applied
  by `pydub.effects.normalize` for a given headroom, width and peak -/
  normFactor : ℚ → ℕ → ℕ → ℚ

/-- A default choice of kernels, used to state closed evaluations.  Every
length, channel-layout, branch and error fact proved below is established
for an arbitrary `Kernels` value; this instance only closes the statements. -/
def K0 : Kernels :=
  ⟨fun _ _ _ => 0, fun _ _ _ => 0, fun _ => 0, fun _ _ _ _ => 0, fun _ _ _ => 1⟩

/-- `AudioSegment.set_frame_rate` (`audioop.ratecv`).  The output frame count
is exact whenever `frames * new_rate` is divisible by the old rate, which
covers every invocation reached from the claims (empty data, equal rates, or
the 11025 → 48000 conversion of the 2-second gap). -/
def setFrameRate (K : Kernels) (s : AudioSeg) (fr : ℕ) : AudioSeg :=
  if s.frameRate = fr then s
  else
    ⟨toBytes s.sampleWidth
        ((List.range ((frameCount s * fr + s.frameRate - 1) / s.frameRate * s.channels)).map
          (K.ratecvVal s.frameRate fr (segSamples s))),
      s.sampleWidth, fr, s.channels⟩

/-- One side of `AudioSegment._sync`: `set_channels`, then `set_frame_rate`,
then `set_sample_width`, in that order. -/
def syncOne (K : Kernels) (ch fr w : ℕ) (s : AudioSeg) : AudioSeg :=
  setSampleWidth (setFrameRate K (setChannels s ch) fr) w

/-- `seg1 + seg2` (`append` with zero crossfade): `_sync` both sides to the
maximal channel count, frame rate and sample width, then concatenate data. -/
def appendSeg (K : Kernels) (a b : AudioSeg) : AudioSeg :=
  let ch := max a.channels b.channels
  let fr := max a.frameRate b.frameRate
  let w := max a.sampleWidth b.sampleWidth
  let a' := syncOne K ch fr w a
  let b' := syncOne K ch fr w b
  ⟨a'.data ++ b'.data, a'.sampleWidth, a'.frameRate, a'.channels⟩

/-- `segment[:stop]` for a nonnegative stop: clamp the stop to `len(self)`,
convert milliseconds to frames by `int(ms * frame_rate / 1000)`, and take
that many frames of raw data. -/
def sliceUpTo (s : AudioSeg) (stop : ℤ) : AudioSeg :=
  let e := min stop (lenMs s)
  ⟨s.data.take (e.toNat * s.frameRate / 1000 * frameWidth s),
    s.sampleWidth, s.frameRate, s.channels⟩

/-- `pydub.effects.apply_gain` via `audioop.mul`: scale every sample by a
factor, truncating toward zero and saturating at the width's range. -/
def applyGain (s : AudioSeg) (factor : ℚ) : AudioSeg :=
  ⟨toBytes s.sampleWidth
      ((segSamples s).map fun (z : ℤ) => clampW s.sampleWidth (ratTrunc ((z : ℚ) * factor))),
    s.sampleWidth, s.frameRate, s.channels⟩

/-- `pydub.effects.normalize(seg, headroom)`: if the peak is zero the segment
is returned unchanged (there is no error path); otherwise a gain computed
from the headroom and peak is applied. -/
def pydubNormalize (K : Kernels) (s : AudioSeg) (headroom : ℚ) : AudioSeg :=
  if maxAbs s = 0 then s
  else applyGain s (K.normFactor headroom s.sampleWidth (maxAbs s))

/-! ### The DSP engine (`src/modules/dsp_engine.py`) -/

/-- Exceptions that the chain can actually raise (scipy `ValueError`s),
together with the error taxonomy named by the specification; the latter
constructors are produced by no code path. -/
inductive DSPError where
  | fftPoints
  | butterBand
  | filtfiltPadlen
  | invalidParameterError
  | invalidBandError
  | unsupportedChannelLayoutError
  | silentBufferError
deriving DecidableEq

/-- `DSPEngine._to_numpy`: parse the samples and normalize by
`2^(8 * sample_width - 1)`. -/
def toNumpy (s : AudioSeg) : List ℚ :=
  (segSamples s).map fun (z : ℤ) => (z : ℚ) / 2 ^ (8 * s.sampleWidth - 1)

/-- `DSPEngine._to_audio_segment`: scale by `2^(8*w-1) - 1`, cast to `int32`
(four bytes per sample in `tobytes()`), but label the segment with the
original sample width — the int32/width mismatch is reproduced faithfully.
The float data handled by the engine is always one-dimensional, so the
constructed segment is mono. -/
def toAudioSegment (sr : ℕ) (d : List ℚ) (orig : AudioSeg) : AudioSeg :=
  ⟨toBytes 4 (d.map fun x => int32wrap (ratTrunc (x * (2 ^ (8 * orig.sampleWidth - 1) - 1)))),
    orig.sampleWidth, sr, 1⟩

/-- `DSPEngine.pitch_shift_432hz`: resample to
`int(len * (rate * 432/440) / rate)` = `⌊len * 54 / 55⌋` samples (modelled in
exact arithmetic), rebuild a segment, re-assert the engine rate.
`scipy.signal.resample` raises a `ValueError` (invalid number of FFT data
points) when the input is empty or the requested count is zero. -/
def pitch_shift_432hz (K : Kernels) (sr : ℕ) (audio : AudioSeg) :
    Except DSPError AudioSeg :=
  let d := toNumpy audio
  let num := d.length * 54 / 55
  if d.length = 0 ∨ num = 0 then .error .fftPoints
  else
    let shifted := (List.range num).map (K.resampleVal d num)
    .ok (setFrameRate K (toAudioSegment sr shifted audio) sr)

/-- `DSPEngine.apply_deesser`: band-pass 4–8 kHz (scipy `butter` demands
`0 < Wn < 1` for both normalized edges, else a generic `ValueError`), then
zero-phase filter (`filtfilt` demands more than `padlen = 27` samples), then
compress sibilants above the threshold by the fixed ratio 6 and subtract the
reduction from the dry signal.  No ratio or band parameters are exposed. -/
def apply_deesser (K : Kernels) (sr : ℕ) (audio : AudioSeg) (threshold : ℚ) :
    Except DSPError AudioSeg :=
  let d := toNumpy audio
  let nyquist : ℚ := (sr : ℚ) / 2
  let low : ℚ := 4000 / nyquist
  let high : ℚ := 8000 / nyquist
  if ¬ (0 < low ∧ low < 1 ∧ 0 < high ∧ high < 1) then .error .butterBand
  else if d.length ≤ 27 then .error .filtfiltPadlen
  else
    let sibilants := (List.range d.length).map (K.filtVal sr d)
    let compressed := sibilants.map fun sb => if threshold < |sb| then sb / 6 else sb
    let processed := List.zipWith (· - ·) d (List.zipWith (· - ·) sibilants compressed)
    .ok (toAudioSegment sr processed audio)

/-- Length of the synthetic impulse response, `int(rate * 5)` samples. -/
def irLen (sr : ℕ) : ℕ := sr * 5

/-- One coefficient of the full convolution of the dry signal with the
impulse response (`fftconvolve(data, ir, mode='full')`, exact sum). -/
def convFull (d ir : List ℚ) (i : ℕ) : ℚ :=
  ((List.range (i + 1)).map fun j => d.getD j 0 * ir.getD (i - j) 0).sum

/-- The float-level body of `add_reverb`: full convolution truncated to the
dry length, mixed as `(1 - wet) * dry + wet * wet_signal`. -/
def reverbMix (K : Kernels) (sr : ℕ) (wetMix : ℚ) (d : List ℚ) : List ℚ :=
  let ir := (List.range (irLen sr)).map K.irVal
  let reverbData := (List.range d.length).map (convFull d ir)
  List.zipWith (fun x r => (1 - wetMix) * x + wetMix * r) d reverbData

/-- `DSPEngine.add_reverb`. -/
def add_reverb (K : Kernels) (sr : ℕ) (audio : AudioSeg) (wetMix : ℚ) : AudioSeg :=
  toAudioSegment sr (reverbMix K sr wetMix (toNumpy audio)) audio

/-- Interleave two equal-length sample lists (`stereo[0::2] = l`,
`stereo[1::2] = r`). -/
def interleave : List ℤ → List ℤ → List ℤ
  | a :: as, b :: bs => a :: b :: interleave as bs
  | _, _ => []

/-- `DSPEngine.stereo_widen`: right channel is `silent(delay) + audio`
sliced back to `len(audio)` milliseconds; both channels truncated to the
shorter sample count and interleaved into a 2-channel segment.  There is no
channel-layout validation and no failure path. -/
def stereo_widen (K : Kernels) (audio : AudioSeg) (delayMs : ℕ) : AudioSeg :=
  let left := audio
  let right := sliceUpTo (appendSeg K (silentSeg delayMs audio.frameRate) audio) (lenMs audio)
  let lS := segSamples left
  let rS := segSamples right
  let minLen := min lS.length rS.length
  ⟨toBytes audio.sampleWidth (interleave (lS.take minLen) (rS.take minLen)),
    audio.sampleWidth, audio.frameRate, 2⟩

/-- `DSPEngine.master_limiter`: plain `normalize(headroom=0.1)`; the
`target_lufs` argument is used only in a log message. -/
def master_limiter (K : Kernels) (audio : AudioSeg) (targetLufs : ℚ) : AudioSeg :=
  pydubNormalize K audio (1 / 10)

/-- The per-clip body of `DSPEngine.process_chain`: pitch shift, de-ess
(default threshold 0.1), reverb (default wet mix 0.4), widen (delay 15). -/
def chainOne (K : Kernels) (sr : ℕ) (vocal : AudioSeg) : Except DSPError AudioSeg := do
  let v1 ← pitch_shift_432hz K sr vocal
  let v2 ← apply_deesser K sr v1 (1 / 10)
  let v3 := add_reverb K sr v2 (2 / 5)
  pure (stereo_widen K v3 15)

/-- The accumulation loop of `process_chain`: grow `combined` by the
processed clip followed by `AudioSegment.silent(duration=2000)` (which uses
pydub's default 11025 Hz frame rate); a stage exception aborts the loop. -/
def processChainGo (K : Kernels) (sr : ℕ) (acc : AudioSeg) :
    List AudioSeg → Except DSPError AudioSeg
  | [] => .ok acc
  | clip :: rest =>
    match chainOne K sr clip with
    | .error e => .error e
    | .ok v => processChainGo K sr (appendSeg K acc (appendSeg K v (silentSeg 2000 11025))) rest

/-- `DSPEngine.process_chain` on already-decoded clips (WAV decoding by
`AudioSegment.from_wav` is external input acquisition): run the chain over
each clip, then `master_limiter` once on the concatenation. -/
def process_chain (K : Kernels) (sr : ℕ) (clips : List AudioSeg) :
    Except DSPError AudioSeg :=
  (processChainGo K sr emptySeg clips).map fun c => master_limiter K c (-16)

/-- The audio artifact path written by stage 3 of `run_pipeline`. -/
def audioOutputPath : String := "output/temp_processed_audio.wav"

/-- Stage 3 of `run_pipeline` (`src/main.py`): the export of the processed
program happens strictly after `process_chain` returns, so a stage exception
leaves nothing written; the list records the files written by the stage. -/
def stage3Written (K : Kernels) (sr : ℕ) (clips : List AudioSeg) : List String :=
  match process_chain K sr clips with
  | .ok _ => [audioOutputPath]
  | .error _ => []

/-! ### Lemmas about the byte primitives -/

theorem bytesOfNat_length (w : ℕ) : ∀ n : ℕ, (bytesOfNat w n).length = w := by
  induction w with
  | zero => intro n; rfl
  | succ w ih => intro n; simp [bytesOfNat, ih]

theorem bytesOfNat_lt (w : ℕ) : ∀ n : ℕ, ∀ b ∈ bytesOfNat w n, b < 256 := by
  induction w with
  | zero => intro n b hb; simp [bytesOfNat] at hb
  | succ w ih =>
    intro n b hb
    simp only [bytesOfNat, List.mem_cons] at hb
    rcases hb with h | h
    · exact h ▸ Nat.mod_lt _ (by norm_num)
    · exact ih _ b h

theorem natOfBytesLE_bytesOfNat (w : ℕ) : ∀ n : ℕ,
    natOfBytesLE (bytesOfNat w n) = n % 256 ^ w := by
  induction w with
  | zero => intro n; simp [bytesOfNat, natOfBytesLE, Nat.mod_one]
  | succ w ih =>
    intro n
    have hm : 0 < 256 ^ w := Nat.pos_pow_of_pos w (by norm_num)
    have step : natOfBytesLE (bytesOfNat (w + 1) n) =
        n % 256 + 256 * natOfBytesLE (bytesOfNat w (n / 256)) := by
      simp [bytesOfNat, natOfBytesLE]
    rw [step, ih]
    have h1 : n = (n % 256 + 256 * (n / 256 % 256 ^ w)) +
        256 ^ (w + 1) * (n / 256 / 256 ^ w) := by
      calc n = 256 * (n / 256) + n % 256 := (Nat.div_add_mod n 256).symm
        _ = 256 * (256 ^ w * (n / 256 / 256 ^ w) + n / 256 % 256 ^ w) + n % 256 := by
            rw [Nat.div_add_mod (n / 256) (256 ^ w)]
        _ = (n % 256 + 256 * (n / 256 % 256 ^ w)) + 256 ^ (w + 1) * (n / 256 / 256 ^ w) := by
            ring
    have h2 : n % 256 + 256 * (n / 256 % 256 ^ w) < 256 ^ (w + 1) := by
      have ha : n / 256 % 256 ^ w < 256 ^ w := Nat.mod_lt _ hm
      have hb : n % 256 < 256 := Nat.mod_lt _ (by norm_num)
      have hc := Nat.mul_le_mul_left 256 (Nat.succ_le_of_lt ha)
      rw [pow_succ]
      omega
    calc n % 256 + 256 * (n / 256 % 256 ^ w)
        = ((n % 256 + 256 * (n / 256 % 256 ^ w)) +
            256 ^ (w + 1) * (n / 256 / 256 ^ w)) % 256 ^ (w + 1) := by
          rw [Nat.add_mul_mod_self_left, Nat.mod_eq_of_lt h2]
      _ = n % 256 ^ (w + 1) := by rw [← h1]

theorem bytesOfInt_length (w : ℕ) (z : ℤ) : (bytesOfInt w z).length = w :=
  bytesOfNat_length w _

theorem toBytes_length (w : ℕ) : ∀ l : List ℤ, (toBytes w l).length = w * l.length := by
  intro l
  induction l with
  | nil => simp [toBytes]
  | cons z zs ih =>
    simp [toBytes, ih, bytesOfInt_length, Nat.mul_succ, Nat.add_comm]

theorem parseSamplesN_length (w : ℕ) : ∀ (k : ℕ) (l : List ℕ),
    (parseSamplesN w k l).length = k := by
  intro k
  induction k with
  | zero => intro l; rfl
  | succ k ih => intro l; simp [parseSamplesN, ih]

theorem parseSamples_length (w : ℕ) (l : List ℕ) :
    (parseSamples w l).length = l.length / w :=
  parseSamplesN_length w _ l

theorem pow_256_eq (w : ℕ) : (256 : ℕ) ^ w = 2 ^ (8 * w) := by
  rw [show (256 : ℕ) = 2 ^ 8 by norm_num, ← pow_mul]

theorem pow_256_int (w : ℕ) : (256 : ℤ) ^ w = 2 ^ (8 * w) := by
  rw [show (256 : ℤ) = 2 ^ 8 by norm_num, ← pow_mul]

/-- Decoding the encoding of an in-range integer sample gives it back. -/
theorem intOfBytesLE_bytesOfInt (w : ℕ) (hw : 0 < w) (z : ℤ)
    (h1 : -(2 ^ (8 * w - 1)) ≤ z) (h2 : z < 2 ^ (8 * w - 1)) :
    intOfBytesLE (bytesOfInt w z) = z := by
  have hsplit : (2 : ℤ) ^ (8 * w) = 2 ^ (8 * w - 1) * 2 := by
    rw [← pow_succ]
    congr 1
    omega
  have hmodpos : (0 : ℤ) < 2 ^ (8 * w) := by positivity
  have hzmod : z % 2 ^ (8 * w) = if 0 ≤ z then z else z + 2 ^ (8 * w) := by
    split
    · exact Int.emod_eq_of_lt (by assumption) (by omega)
    · have hstep : (z + 2 ^ (8 * w) * 1) % 2 ^ (8 * w) = z % 2 ^ (8 * w) :=
        @Int.add_mul_emod_self_left z (2 ^ (8 * w)) 1
      rw [show z % 2 ^ (8 * w) = (z + 2 ^ (8 * w)) % 2 ^ (8 * w) by
          rw [← hstep, Int.mul_one]]
      exact Int.emod_eq_of_lt (by omega) (by omega)
  have hnat : ((z % 2 ^ (8 * w)).toNat : ℤ) = z % 2 ^ (8 * w) :=
    Int.toNat_of_nonneg (Int.emod_nonneg z (by positivity))
  have hlt : (z % 2 ^ (8 * w)).toNat < 256 ^ w := by
    have hub := Int.emod_lt_of_pos z hmodpos
    have h256 : ((256 : ℕ) ^ w : ℤ) = 2 ^ (8 * w) := by
      push_cast
      exact pow_256_int w
    omega
  unfold intOfBytesLE bytesOfInt
  rw [bytesOfNat_length, natOfBytesLE_bytesOfNat, Nat.mod_eq_of_lt hlt]
  by_cases hz : 0 ≤ z
  · have hzz : z % 2 ^ (8 * w) = z := by rw [hzmod]; simp [hz]
    have hval : ((z % 2 ^ (8 * w)).toNat : ℤ) = z := by rw [hnat, hzz]
    rw [if_pos]
    · exact hval
    · rw [hval]
      exact h2
  · have hzz : z % 2 ^ (8 * w) = z + 2 ^ (8 * w) := by rw [hzmod]; simp [hz]
    have hval : ((z % 2 ^ (8 * w)).toNat : ℤ) = z + 2 ^ (8 * w) := by rw [hnat, hzz]
    rw [if_neg]
    · rw [hval]
      ring
    · rw [hval]
      omega

theorem natOfBytesLE_lt (bs : List ℕ) (h : ∀ b ∈ bs, b < 256) :
    natOfBytesLE bs < 256 ^ bs.length := by
  induction bs with
  | nil => simp [natOfBytesLE]
  | cons b rest ih =>
    have hb : b < 256 := h b (List.mem_cons_self b rest)
    have hr := ih fun x hx => h x (List.mem_cons_of_mem b hx)
    simp only [natOfBytesLE, List.foldr_cons, List.length_cons] at *
    calc b + 256 * rest.foldr (fun b acc => b + 256 * acc) 0
        ≤ 255 + 256 * (256 ^ rest.length - 1) := by
          have := Nat.mul_le_mul_left 256 (Nat.le_sub_one_of_lt hr)
          omega
      _ < 256 ^ (rest.length + 1) := by
          rw [pow_succ]
          have : (0:ℕ) < 256 ^ rest.length := Nat.pos_pow_of_pos _ (by norm_num)
          omega

/-- A parsed `w`-byte sample lies in the signed `w`-byte range. -/
theorem intOfBytesLE_range (bs : List ℕ) (hw : 0 < bs.length) (h : ∀ b ∈ bs, b < 256) :
    -(2 ^ (8 * bs.length - 1)) ≤ intOfBytesLE bs ∧
      intOfBytesLE bs < 2 ^ (8 * bs.length - 1) := by
  have hu := natOfBytesLE_lt bs h
  have h256 : ((256 : ℕ) ^ bs.length : ℤ) = 2 ^ (8 * bs.length) := by
    push_cast
    exact pow_256_int bs.length
  have huz : (natOfBytesLE bs : ℤ) < 2 ^ (8 * bs.length) := by
    have : ((natOfBytesLE bs : ℕ) : ℤ) < ((256 ^ bs.length : ℕ) : ℤ) := by
      exact_mod_cast hu
    omega
  have hsplit : (2 : ℤ) ^ (8 * bs.length) = 2 ^ (8 * bs.length - 1) * 2 := by
    rw [← pow_succ]
    congr 1
    omega
  have hnn : (0 : ℤ) ≤ (natOfBytesLE bs : ℤ) := Int.ofNat_nonneg _
  have hpos : (0 : ℤ) < 2 ^ (8 * bs.length - 1) := by positivity
  unfold intOfBytesLE
  split
  · exact ⟨by omega, by assumption⟩
  · exact ⟨by omega, by omega⟩

theorem toBytes_cons (w : ℕ) (z : ℤ) (zs : List ℤ) :
    toBytes w (z :: zs) = bytesOfInt w z ++ toBytes w zs := rfl

theorem parseSamplesN_succ (w k : ℕ) (l : List ℕ) :
    parseSamplesN w (k + 1) l = intOfBytesLE (l.take w) :: parseSamplesN w k (l.drop w) := rfl

theorem parseSamplesN_toBytes_append (w : ℕ) :
    ∀ (l : List ℤ) (tail : List ℕ) (k : ℕ),
      parseSamplesN w (l.length + k) (toBytes w l ++ tail) =
        l.map (fun z => intOfBytesLE (bytesOfInt w z)) ++ parseSamplesN w k tail := by
  intro l
  induction l with
  | nil => intro tail k; simp [toBytes]
  | cons z zs ih =>
    intro tail k
    have hlen : (z :: zs).length + k = (zs.length + k) + 1 := by
      simp [Nat.succ_add, Nat.add_assoc, Nat.add_comm]
    rw [hlen, parseSamplesN_succ, toBytes_cons, List.append_assoc,
      List.take_left' (bytesOfInt_length w z), List.drop_left' (bytesOfInt_length w z), ih]
    simp

theorem parseSamples_toBytes (w : ℕ) (hw : 0 < w) (l : List ℤ) :
    parseSamples w (toBytes w l) = l.map fun z => intOfBytesLE (bytesOfInt w z) := by
  unfold parseSamples
  rw [toBytes_length, Nat.mul_div_cancel_left _ hw]
  have h := parseSamplesN_toBytes_append w l [] 0
  simpa [parseSamplesN] using h

/-- Serializing in-range samples and parsing them back is the identity. -/
theorem parseSamples_toBytes_of_range (w : ℕ) (hw : 0 < w) (l : List ℤ)
    (h : ∀ z ∈ l, -(2 ^ (8 * w - 1)) ≤ z ∧ z < 2 ^ (8 * w - 1)) :
    parseSamples w (toBytes w l) = l := by
  rw [parseSamples_toBytes w hw l]
  have : ∀ z ∈ l, intOfBytesLE (bytesOfInt w z) = z := fun z hz =>
    intOfBytesLE_bytesOfInt w hw z (h z hz).1 (h z hz).2
  calc l.map (fun z => intOfBytesLE (bytesOfInt w z)) = l.map id := List.map_congr_left this
    _ = l := List.map_id l

theorem natOfBytesLE_replicate_zero : ∀ k : ℕ, natOfBytesLE (List.replicate k 0) = 0 := by
  intro k
  induction k with
  | zero => rfl
  | succ k ih => simpa [natOfBytesLE, List.replicate_succ] using ih

theorem intOfBytesLE_replicate_zero (k : ℕ) : intOfBytesLE (List.replicate k 0) = 0 := by
  unfold intOfBytesLE
  rw [natOfBytesLE_replicate_zero k]
  rw [if_pos]
  · rfl
  · positivity

theorem bytesOfNat_zero : ∀ w : ℕ, bytesOfNat w 0 = List.replicate w 0 := by
  intro w
  induction w with
  | zero => rfl
  | succ w ih => simp [bytesOfNat, ih, List.replicate_succ]

theorem bytesOfInt_zero (w : ℕ) : bytesOfInt w 0 = List.replicate w 0 := by
  unfold bytesOfInt
  rw [Int.zero_emod]
  exact bytesOfNat_zero w

theorem toBytes_replicate_zero (w : ℕ) : ∀ k : ℕ,
    toBytes w (List.replicate k 0) = List.replicate (w * k) 0 := by
  intro k
  induction k with
  | zero => simp [toBytes]
  | succ k ih =>
    rw [List.replicate_succ, toBytes_cons, ih, bytesOfInt_zero,
      ← List.replicate_add, Nat.mul_succ, Nat.add_comm]

theorem parseSamplesN_replicate_zero (w : ℕ) : ∀ (k m : ℕ),
    parseSamplesN w k (List.replicate m 0) = List.replicate k 0 := by
  intro k
  induction k with
  | zero => intro m; rfl
  | succ k ih =>
    intro m
    rw [parseSamplesN_succ, List.take_replicate, List.drop_replicate, ih,
      intOfBytesLE_replicate_zero, List.replicate_succ]

theorem parseSamplesN_take (w : ℕ) : ∀ (k : ℕ) (l : List ℕ),
    parseSamplesN w k (l.take (w * k)) = parseSamplesN w k l := by
  intro k
  induction k with
  | zero => intro l; rfl
  | succ k ih =>
    intro l
    rw [parseSamplesN_succ, parseSamplesN_succ, List.take_take, List.drop_take,
      min_eq_left (Nat.le_mul_of_pos_right w (Nat.succ_pos k)),
      show w * (k + 1) - w = w * k by rw [Nat.mul_succ]; omega, ih]

theorem parseSamplesN_prefix (w : ℕ) : ∀ (j k : ℕ) (l : List ℕ), j ≤ k →
    parseSamplesN w j l = (parseSamplesN w k l).take j := by
  intro j
  induction j with
  | zero => intro k l _; rfl
  | succ j ih =>
    intro k l hjk
    obtain ⟨k', rfl⟩ : ∃ k', k = k' + 1 := ⟨k - 1, by omega⟩
    rw [parseSamplesN_succ, parseSamplesN_succ, List.take_succ_cons,
      ih k' (l.drop w) (by omega)]

theorem parseSamplesN_append_exact (w : ℕ) : ∀ (k m : ℕ) (l₁ l₂ : List ℕ),
    l₁.length = w * k →
    parseSamplesN w (k + m) (l₁ ++ l₂) = parseSamplesN w k l₁ ++ parseSamplesN w m l₂ := by
  intro k
  induction k with
  | zero =>
    intro m l₁ l₂ h
    have : l₁ = [] := List.eq_nil_of_length_eq_zero (by simpa using h)
    subst this
    simp [parseSamplesN]
  | succ k ih =>
    intro m l₁ l₂ h
    have hw1 : w ≤ l₁.length := by rw [h, Nat.mul_succ]; omega
    have hdrop : (l₁.drop w).length = w * k := by
      rw [List.length_drop, h, Nat.mul_succ]
      omega
    rw [show k + 1 + m = (k + m) + 1 by omega, parseSamplesN_succ,
      List.take_append_of_le_length hw1, List.drop_append_of_le_length hw1,
      ih m _ l₂ hdrop, parseSamplesN_succ, List.cons_append]

/-! ### Interleaving -/

theorem interleave_length : ∀ a b : List ℤ, a.length = b.length →
    (interleave a b).length = 2 * a.length := by
  intro a
  induction a with
  | nil => intro b _; simp [interleave]
  | cons x xs ih =>
    intro b h
    match b with
    | y :: ys =>
      simp only [interleave, List.length_cons] at *
      rw [ih ys (by omega)]
      omega

/-- The even-indexed entries of an interleaved stereo stream (left channel). -/
def evensIdx : List ℤ → List ℤ
  | [] => []
  | [a] => [a]
  | a :: _ :: r => a :: evensIdx r

/-- The odd-indexed entries of an interleaved stereo stream (right channel). -/
def oddsIdx : List ℤ → List ℤ
  | [] => []
  | [_] => []
  | _ :: b :: r => b :: oddsIdx r

theorem evensIdx_interleave : ∀ a b : List ℤ, a.length = b.length →
    evensIdx (interleave a b) = a := by
  intro a
  induction a with
  | nil => intro b _; simp [interleave, evensIdx]
  | cons x xs ih =>
    intro b h
    match b with
    | y :: ys =>
      simp only [interleave, evensIdx]
      rw [ih ys (by simpa using h)]

theorem oddsIdx_interleave : ∀ a b : List ℤ, a.length = b.length →
    oddsIdx (interleave a b) = b := by
  intro a
  induction a with
  | nil =>
    intro b h
    have : b = [] := List.eq_nil_of_length_eq_zero (by simpa using h.symm)
    subst this
    rfl
  | cons x xs ih =>
    intro b h
    match b with
    | y :: ys =>
      simp only [interleave, oddsIdx]
      rw [ih ys (by simpa using h)]

/-! ### Lemmas about Python rounding -/

theorem pyRound_ge_floor (q : ℚ) : ⌊q⌋ ≤ pyRound q := by
  unfold pyRound
  split_ifs <;> omega

theorem pyRound_le_floor_succ (q : ℚ) : pyRound q ≤ ⌊q⌋ + 1 := by
  unfold pyRound
  split_ifs <;> omega

theorem pyRound_nonneg (q : ℚ) (h : 0 ≤ q) : 0 ≤ pyRound q :=
  le_trans (Int.floor_nonneg.mpr h) (pyRound_ge_floor q)

theorem pyRound_le_add_half (q : ℚ) : (pyRound q : ℚ) ≤ q + 1 / 2 := by
  have hfl : (⌊q⌋ : ℚ) ≤ q := Int.floor_le q
  unfold pyRound
  split_ifs with h1 h2 h3
  · linarith
  · push_cast
    linarith
  · linarith
  · push_cast
    linarith

theorem pyRound_mono {q r : ℚ} (h : q ≤ r) : pyRound q ≤ pyRound r := by
  have hf : ⌊q⌋ ≤ ⌊r⌋ := Int.floor_le_floor h
  rcases lt_or_eq_of_le hf with hlt | heq
  · have h1 := pyRound_le_floor_succ q
    have h2 := pyRound_ge_floor r
    omega
  · unfold pyRound
    rw [← heq]
    have hfr : q - ⌊q⌋ ≤ r - ⌊q⌋ := by linarith
    split_ifs <;> first | omega | linarith

theorem pyRound_intCast (n : ℤ) : pyRound (n : ℚ) = n := by
  unfold pyRound
  rw [Int.floor_intCast]
  rw [if_pos]
  norm_num

theorem pyRound_eq_of_lt_half (q : ℚ) (m : ℤ) (h1 : (m : ℚ) ≤ q)
    (h2 : q < (m : ℚ) + 1 / 2) : pyRound q = m := by
  have hfl : ⌊q⌋ = m := by
    rw [Int.floor_eq_iff]
    exact ⟨h1, by push_cast; linarith⟩
  unfold pyRound
  rw [hfl, if_pos (by linarith)]

theorem pyRound_eq_of_gt_half (q : ℚ) (m : ℤ) (h1 : (m : ℚ) + 1 / 2 < q)
    (h2 : q < (m : ℚ) + 1) : pyRound q = m + 1 := by
  have hfl : ⌊q⌋ = m := by
    rw [Int.floor_eq_iff]
    exact ⟨by linarith, by push_cast; linarith⟩
  unfold pyRound
  rw [hfl, if_neg (by linarith), if_pos (by linarith)]

theorem pyRound_eq_of_half_even (q : ℚ) (m : ℤ) (heq : q = (m : ℚ) + 1 / 2)
    (hm : Even m) : pyRound q = m := by
  have hfl : ⌊q⌋ = m := by
    rw [Int.floor_eq_iff]
    exact ⟨by linarith, by push_cast; linarith⟩
  unfold pyRound
  rw [hfl, if_neg (by rw [heq]; push_cast; linarith), if_neg (by rw [heq]; push_cast; linarith),
    if_pos hm]

/-- Truncation toward zero agrees with the floor on nonnegative inputs. -/
theorem ratTrunc_of_nonneg (q : ℚ) (h : 0 ≤ q) : ratTrunc q = ⌊q⌋ := by
  unfold ratTrunc
  rw [if_pos h]

/-! ### Segment-level facts about the conversion helpers -/

theorem segSamples_length (s : AudioSeg) :
    (segSamples s).length = s.data.length / s.sampleWidth :=
  parseSamples_length _ _

theorem mk_data (dat : List ℕ) (sw fr ch : ℕ) :
    (AudioSeg.mk dat sw fr ch).data = dat := rfl

theorem mk_sampleWidth (dat : List ℕ) (sw fr ch : ℕ) :
    (AudioSeg.mk dat sw fr ch).sampleWidth = sw := rfl

theorem mk_frameRate (dat : List ℕ) (sw fr ch : ℕ) :
    (AudioSeg.mk dat sw fr ch).frameRate = fr := rfl

theorem mk_channels (dat : List ℕ) (sw fr ch : ℕ) :
    (AudioSeg.mk dat sw fr ch).channels = ch := rfl

theorem frameCount_mk (dat : List ℕ) (sw fr ch : ℕ) :
    frameCount ⟨dat, sw, fr, ch⟩ = dat.length / (sw * ch) := rfl

theorem frameCount_replicate (k sw fr ch : ℕ) :
    frameCount ⟨List.replicate k 0, sw, fr, ch⟩ = k / (sw * ch) := by
  rw [frameCount_mk, List.length_replicate]

theorem toNumpy_length (s : AudioSeg) :
    (toNumpy s).length = s.data.length / s.sampleWidth := by
  unfold toNumpy
  rw [List.length_map, segSamples_length]

theorem toAudioSegment_data_length (sr : ℕ) (d : List ℚ) (o : AudioSeg) :
    (toAudioSegment sr d o).data.length = 4 * d.length := by
  unfold toAudioSegment
  rw [toBytes_length, List.length_map]

theorem toAudioSegment_sampleWidth (sr : ℕ) (d : List ℚ) (o : AudioSeg) :
    (toAudioSegment sr d o).sampleWidth = o.sampleWidth := rfl

theorem toAudioSegment_frameRate (sr : ℕ) (d : List ℚ) (o : AudioSeg) :
    (toAudioSegment sr d o).frameRate = sr := rfl

theorem toAudioSegment_channels (sr : ℕ) (d : List ℚ) (o : AudioSeg) :
    (toAudioSegment sr d o).channels = 1 := rfl

theorem setChannels_self (s : AudioSeg) {n : ℕ} (h : s.channels = n) :
    setChannels s n = s := by
  unfold setChannels
  rw [if_pos h]

theorem setFrameRate_self (K : Kernels) (s : AudioSeg) {fr : ℕ} (h : s.frameRate = fr) :
    setFrameRate K s fr = s := by
  unfold setFrameRate
  rw [if_pos h]

theorem setSampleWidth_self (s : AudioSeg) {w : ℕ} (h : s.sampleWidth = w) :
    setSampleWidth s w = s := by
  unfold setSampleWidth
  rw [if_pos h]

theorem syncOne_self (K : Kernels) {ch fr w : ℕ} (s : AudioSeg)
    (hch : s.channels = ch) (hfr : s.frameRate = fr) (hw : s.sampleWidth = w) :
    syncOne K ch fr w s = s := by
  unfold syncOne
  rw [setChannels_self s hch, setFrameRate_self K s hfr, setSampleWidth_self s hw]

/-! ### Per-stage length and error lemmas -/

/-- `pitch_shift_432hz` succeeds on a buffer of at least two samples and
returns `⌊n * 54 / 55⌋` resampled values, serialized as int32 but labelled
with the input's sample width. -/
theorem pitch_shift_ok (K : Kernels) (sr : ℕ) (s : AudioSeg) (n : ℕ)
    (hw : 0 < s.sampleWidth) (hn : s.data.length = s.sampleWidth * n) (h2 : 2 ≤ n) :
    ∃ t, pitch_shift_432hz K sr s = Except.ok t ∧
      t.data.length = 4 * (n * 54 / 55) ∧
      t.sampleWidth = s.sampleWidth ∧ t.frameRate = sr ∧ t.channels = 1 := by
  have hd : (toNumpy s).length = n := by
    rw [toNumpy_length, hn, Nat.mul_div_cancel_left n hw]
  have hpos : 1 ≤ n * 54 / 55 := by
    rw [Nat.le_div_iff_mul_le (by norm_num)]
    omega
  have hcond : ¬(n = 0 ∨ n * 54 / 55 = 0) := by omega
  simp only [pitch_shift_432hz, hd, if_neg hcond]
  rw [setFrameRate_self K _ (toAudioSegment_frameRate sr _ s)]
  refine ⟨_, rfl, ?_, rfl, rfl, rfl⟩
  rw [toAudioSegment_data_length, List.length_map, List.length_range]

/-- `pitch_shift_432hz` raises scipy's FFT `ValueError` on an empty buffer. -/
theorem pitch_shift_err_empty (K : Kernels) (sr : ℕ) (s : AudioSeg)
    (h : s.data.length = 0) :
    pitch_shift_432hz K sr s = Except.error .fftPoints := by
  unfold pitch_shift_432hz
  rw [if_pos]
  left
  rw [toNumpy_length, h, Nat.zero_div]

/-- At the engine's default 48 kHz rate, `apply_deesser` succeeds whenever
the buffer holds more than `padlen = 27` samples, and preserves the sample
count (again serialized as int32 under the original width label). -/
theorem apply_deesser_ok_48000 (K : Kernels) (s : AudioSeg) (thr : ℚ) (m : ℕ)
    (hw : 0 < s.sampleWidth) (hm : s.data.length = s.sampleWidth * m) (h27 : 27 < m) :
    ∃ t, apply_deesser K 48000 s thr = Except.ok t ∧
      t.data.length = 4 * m ∧
      t.sampleWidth = s.sampleWidth ∧ t.frameRate = 48000 ∧ t.channels = 1 := by
  have hd : (toNumpy s).length = m := by
    rw [toNumpy_length, hm, Nat.mul_div_cancel_left m hw]
  have hband : ((0 : ℚ) < 4000 / ((48000 : ℕ) / 2 : ℚ) ∧ 4000 / ((48000 : ℕ) / 2 : ℚ) < 1 ∧
      (0 : ℚ) < 8000 / ((48000 : ℕ) / 2 : ℚ) ∧ 8000 / ((48000 : ℕ) / 2 : ℚ) < 1) := by
    norm_num
  have hcond : ¬ m ≤ 27 := by omega
  simp only [apply_deesser, hd, if_neg (not_not_intro hband), if_neg hcond]
  refine ⟨_, rfl, ?_, rfl, rfl, rfl⟩
  rw [toAudioSegment_data_length, List.length_zipWith, List.length_zipWith,
    List.length_map, List.length_map, List.length_range, hd]
  simp

/-- When the fixed 4–8 kHz band reaches Nyquist (engine rate at most
16 kHz), `apply_deesser` fails with the generic scipy critical-frequency
`ValueError` — not with the specification's `InvalidBandError`. -/
theorem apply_deesser_err_lowrate (K : Kernels) (sr : ℕ) (s : AudioSeg) (thr : ℚ)
    (h0 : 0 < sr) (h16 : sr ≤ 16000) :
    apply_deesser K sr s thr = Except.error .butterBand := by
  unfold apply_deesser
  rw [if_pos]
  push_neg
  intro _ _ _
  have hsr : (0 : ℚ) < (sr : ℚ) := by exact_mod_cast h0
  have h1 : (8000 : ℚ) / ((sr : ℚ) / 2) = 16000 / (sr : ℚ) := by
    field_simp
    ring
  rw [h1]
  rw [le_div_iff₀ hsr]
  calc (1 : ℚ) * (sr : ℚ) = (sr : ℚ) := one_mul _
    _ ≤ 16000 := by exact_mod_cast h16

/-- `add_reverb` preserves the float sample count and rebuilds the segment
through the adapter. -/
theorem add_reverb_meta (K : Kernels) (sr : ℕ) (s : AudioSeg) (wet : ℚ) :
    (add_reverb K sr s wet).data.length = 4 * ((toNumpy s).length) ∧
      (add_reverb K sr s wet).sampleWidth = s.sampleWidth ∧
      (add_reverb K sr s wet).frameRate = sr ∧
      (add_reverb K sr s wet).channels = 1 := by
  refine ⟨?_, rfl, rfl, rfl⟩
  unfold add_reverb
  rw [toAudioSegment_data_length]
  unfold reverbMix
  rw [List.length_zipWith, List.length_map, List.length_range]
  simp

theorem zipWith_mix_zero : ∀ d rd : List ℚ, d.length ≤ rd.length →
    List.zipWith (fun x r => (1 - (0 : ℚ)) * x + 0 * r) d rd = d := by
  intro d
  induction d with
  | nil => intro rd _; rfl
  | cons x xs ih =>
    intro rd h
    match rd with
    | y :: ys =>
      simp only [List.zipWith_cons_cons]
      have hx : (1 - (0 : ℚ)) * x + 0 * y = x := by ring
      rw [hx, ih ys (by simpa using h)]

/-- With `wetMix = 0` the wet/dry mix is exactly the dry float signal. -/
theorem reverbMix_zero (K : Kernels) (sr : ℕ) (d : List ℚ) :
    reverbMix K sr 0 d = d := by
  unfold reverbMix
  apply zipWith_mix_zero
  rw [List.length_map, List.length_range]

/-! ### Synchronisation of silent segments -/

theorem dupEach_replicate (z : ℤ) : ∀ k : ℕ,
    dupEach (List.replicate k z) = List.replicate (2 * k) z := by
  intro k
  induction k with
  | zero => rfl
  | succ k ih =>
    rw [List.replicate_succ, show 2 * (k + 1) = (2 * k) + 1 + 1 by omega,
      List.replicate_succ, List.replicate_succ]
    simpa [dupEach] using ih

theorem segSamples_mk (dat : List ℕ) (sw fr ch : ℕ) :
    segSamples ⟨dat, sw, fr, ch⟩ = parseSamples sw dat := rfl

theorem segSamples_replicate_zero (sw fr ch k : ℕ) (hw : 0 < sw) :
    segSamples ⟨List.replicate (sw * k) 0, sw, fr, ch⟩ = List.replicate k 0 := by
  rw [segSamples_mk]
  unfold parseSamples
  rw [List.length_replicate, Nat.mul_div_cancel_left k hw, parseSamplesN_replicate_zero]

theorem setChannels_zeros (fr c k : ℕ) (hc : c = 1 ∨ c = 2) :
    setChannels ⟨List.replicate (2 * k) 0, 2, fr, 1⟩ c =
      ⟨List.replicate (2 * (c * k)) 0, 2, fr, c⟩ := by
  rcases hc with rfl | rfl
  · rw [setChannels_self _ rfl]
    norm_num
  · unfold setChannels
    rw [if_neg (by norm_num), if_pos (by norm_num)]
    have hs : segSamples ⟨List.replicate (2 * k) 0, 2, fr, 1⟩ = List.replicate k 0 :=
      segSamples_replicate_zero 2 fr 1 k (by norm_num)
    simp only [hs]
    rw [dupEach_replicate, toBytes_replicate_zero]

theorem setSampleWidth_zeros (fr c k w : ℕ) (hw2 : 2 ≤ w) :
    setSampleWidth ⟨List.replicate (2 * k) 0, 2, fr, c⟩ w =
      ⟨List.replicate (w * k) 0, w, fr, c⟩ := by
  by_cases h2 : w = 2
  · subst h2
    rw [setSampleWidth_self _ rfl]
  · unfold setSampleWidth
    rw [if_neg (by simpa using Ne.symm h2)]
    have hs : segSamples ⟨List.replicate (2 * k) 0, 2, fr, c⟩ = List.replicate k 0 :=
      segSamples_replicate_zero 2 fr c k (by norm_num)
    simp only [hs, List.map_replicate]
    rw [if_pos (by simpa using hw2), Int.zero_mul, toBytes_replicate_zero]

/-- Syncing `AudioSegment.silent(d, fr)` to `c` channels, the same frame
rate and width `w` yields `w * c * frames` zero bytes. -/
theorem syncOne_silent (K : Kernels) (fr d c w : ℕ) (hc : c = 1 ∨ c = 2) (hw2 : 2 ≤ w) :
    syncOne K c fr w (silentSeg d fr) =
      ⟨List.replicate (w * (c * (fr * d / 1000))) 0, w, fr, c⟩ := by
  unfold syncOne silentSeg
  rw [show fr * d / 1000 * 2 = 2 * (fr * d / 1000) by ring]
  rw [setChannels_zeros fr c (fr * d / 1000) hc,
    setFrameRate_self K _ rfl, setSampleWidth_zeros fr c _ w hw2]

/-! ### Arithmetic helpers -/

theorem nat_mul_min (a b c : ℕ) : min (a * b) (a * c) = a * min b c := by
  rcases le_total b c with h | h
  · rw [min_eq_left h, min_eq_left (Nat.mul_le_mul_left a h)]
  · rw [min_eq_right h, min_eq_right (Nat.mul_le_mul_left a h)]

theorem ms_over_48000 (F : ℕ) :
    (1000 * (F : ℚ)) / ((48000 : ℕ) : ℚ) = (F : ℚ) / 48 := by
  rw [div_eq_div_iff (by norm_num) (by norm_num)]
  push_cast
  ring

/-! ### The stereo widener -/

/-- Characterisation of `stereo_widen` output metadata.  The output is a
declared 2-channel segment at 48 kHz; its interleaved stream holds
`2 * c * min F (48 * round(F/48))` width-`w` samples for an input with `c`
channels and `F` frames: pydub's millisecond slicing rounds the right
channel to the integer-millisecond grid before truncation to the shorter
channel. -/
theorem stereo_widen_meta (K : Kernels) (s : AudioSeg) (dms c w F : ℕ)
    (hch : s.channels = c) (hc : c = 1 ∨ c = 2)
    (hwd : s.sampleWidth = w) (hw2 : 2 ≤ w)
    (hf : s.frameRate = 48000)
    (hlen : s.data.length = w * (c * F)) :
    (stereo_widen K s dms).channels = 2 ∧
    (stereo_widen K s dms).sampleWidth = w ∧
    (stereo_widen K s dms).frameRate = 48000 ∧
    (stereo_widen K s dms).data.length =
      w * (2 * (c * min F (48 * (pyRound ((F : ℚ) / 48)).toNat))) := by
  have hwpos : 0 < w := by omega
  have hcpos : 0 < c := by rcases hc with rfl | rfl <;> norm_num
  obtain ⟨dat, sw, fr, ch⟩ := s
  dsimp only at hch hwd hf hlen
  subst hch hwd hf
  refine ⟨rfl, rfl, rfl, ?_⟩
  have hP : (48000 : ℕ) * dms / 1000 = 48 * dms := by omega
  have hsil := syncOne_silent K 48000 dms ch sw hc hw2
  rw [hP] at hsil
  have happ : appendSeg K (silentSeg dms 48000) ⟨dat, sw, 48000, ch⟩ =
      ⟨List.replicate (sw * (ch * (48 * dms))) 0 ++ dat, sw, 48000, ch⟩ := by
    unfold appendSeg
    dsimp only [silentSeg]
    rw [show max 1 ch = ch from max_eq_right hcpos,
      show max (48000 : ℕ) 48000 = 48000 from max_self _,
      show max 2 sw = sw from max_eq_right hw2]
    rw [show silentSeg dms 48000 =
        (⟨List.replicate (48000 * dms / 1000 * 2) 0, 2, 48000, 1⟩ : AudioSeg) from rfl] at hsil
    rw [hsil, @syncOne_self K ch 48000 sw ⟨dat, sw, 48000, ch⟩ rfl rfl rfl]
  have hfc : frameCount ⟨dat, sw, 48000, ch⟩ = F := by
    unfold frameCount frameWidth
    dsimp only
    rw [hlen, show sw * (ch * F) = (sw * ch) * F by ring,
      Nat.mul_div_cancel_left F (Nat.mul_pos hwpos hcpos)]
  have hlm : lenMs ⟨dat, sw, 48000, ch⟩ = pyRound ((F : ℚ) / 48) := by
    unfold lenMs
    dsimp only
    rw [hfc, ms_over_48000]
  have hfc0 : frameCount ⟨List.replicate (sw * (ch * (48 * dms))) 0 ++ dat, sw, 48000, ch⟩ =
      48 * dms + F := by
    unfold frameCount frameWidth
    dsimp only
    rw [List.length_append, List.length_replicate, hlen,
      show sw * (ch * (48 * dms)) + sw * (ch * F) = (sw * ch) * (48 * dms + F) by ring,
      Nat.mul_div_cancel_left _ (Nat.mul_pos hwpos hcpos)]
  have hlm0 : lenMs ⟨List.replicate (sw * (ch * (48 * dms))) 0 ++ dat, sw, 48000, ch⟩ =
      pyRound (((48 * dms + F : ℕ) : ℚ) / 48) := by
    unfold lenMs
    dsimp only
    rw [hfc0, ms_over_48000]
  have hmono : pyRound ((F : ℚ) / 48) ≤ pyRound (((48 * dms + F : ℕ) : ℚ) / 48) := by
    apply pyRound_mono
    gcongr
    push_cast
    omega
  have hM0 : 0 ≤ pyRound ((F : ℚ) / 48) := pyRound_nonneg _ (by positivity)
  have hslice : sliceUpTo ⟨List.replicate (sw * (ch * (48 * dms))) 0 ++ dat, sw, 48000, ch⟩
        (lenMs ⟨dat, sw, 48000, ch⟩) =
      ⟨(List.replicate (sw * (ch * (48 * dms))) 0 ++ dat).take
          (48 * (pyRound ((F : ℚ) / 48)).toNat * (sw * ch)), sw, 48000, ch⟩ := by
    unfold sliceUpTo
    rw [hlm, hlm0]
    rw [min_eq_left hmono]
    unfold frameWidth
    dsimp only
    rw [show (pyRound ((F : ℚ) / 48)).toNat * 48000 / 1000 =
        48 * (pyRound ((F : ℚ) / 48)).toNat by omega]
  have hlS : (segSamples ⟨dat, sw, 48000, ch⟩).length = ch * F := by
    rw [segSamples_length]
    dsimp only
    rw [hlen, Nat.mul_div_cancel_left _ hwpos]
  have hrS : (segSamples ⟨(List.replicate (sw * (ch * (48 * dms))) 0 ++ dat).take
        (48 * (pyRound ((F : ℚ) / 48)).toNat * (sw * ch)), sw, 48000, ch⟩).length =
      ch * min (48 * (pyRound ((F : ℚ) / 48)).toNat) (48 * dms + F) := by
    rw [segSamples_length]
    dsimp only
    rw [List.length_take, List.length_append, List.length_replicate, hlen,
      show 48 * (pyRound ((F : ℚ) / 48)).toNat * (sw * ch) =
        sw * (ch * (48 * (pyRound ((F : ℚ) / 48)).toNat)) by ring,
      show sw * (ch * (48 * dms)) + sw * (ch * F) = sw * (ch * (48 * dms + F)) by ring,
      nat_mul_min sw _ _, Nat.mul_div_cancel_left _ hwpos, nat_mul_min ch _ _]
  simp only [stereo_widen]
  rw [happ, hslice, toBytes_length]
  rw [interleave_length _ _ (by
    rw [List.length_take, List.length_take, hlS, hrS]
    omega)]
  rw [List.length_take, hlS, hrS]
  rw [min_eq_left (min_le_left _ _), nat_mul_min ch]
  rw [show min F (min (48 * (pyRound ((F : ℚ) / 48)).toNat) (48 * dms + F)) =
      min F (48 * (pyRound ((F : ℚ) / 48)).toNat) by omega]

/-! ### Normalization and the master limiter -/

theorem maxAbs_of_all_zero (s : AudioSeg) (h : ∀ z ∈ segSamples s, z = 0) :
    maxAbs s = 0 := by
  unfold maxAbs
  have key : ∀ l : List ℤ, (∀ z ∈ l, z = 0) → (l.map Int.natAbs).foldr max 0 = 0 := by
    intro l
    induction l with
    | nil => intro _; rfl
    | cons z zs ih =>
      intro hz
      simp only [List.map_cons, List.foldr_cons]
      rw [hz z (List.mem_cons_self z zs),
        ih fun x hx => hz x (List.mem_cons_of_mem z hx)]
      rfl
  exact key _ h

theorem pydubNormalize_zero_peak (K : Kernels) (s : AudioSeg) (h : ℚ)
    (hz : maxAbs s = 0) : pydubNormalize K s h = s := by
  unfold pydubNormalize
  rw [hz]
  rw [if_pos rfl]

theorem applyGain_data_length (s : AudioSeg) (f : ℚ) :
    (applyGain s f).data.length = s.sampleWidth * (s.data.length / s.sampleWidth) := by
  unfold applyGain
  rw [toBytes_length, List.length_map, segSamples_length]

/-- `master_limiter` never changes metadata or sample count (on width-aligned
data), whichever `normalize` branch is taken. -/
theorem master_limiter_meta (K : Kernels) (s : AudioSeg) (L : ℚ) (k : ℕ)
    (hw : 0 < s.sampleWidth) (hlen : s.data.length = s.sampleWidth * k) :
    (master_limiter K s L).data.length = s.data.length ∧
    (master_limiter K s L).sampleWidth = s.sampleWidth ∧
    (master_limiter K s L).frameRate = s.frameRate ∧
    (master_limiter K s L).channels = s.channels := by
  unfold master_limiter pydubNormalize
  split
  · exact ⟨rfl, rfl, rfl, rfl⟩
  · refine ⟨?_, rfl, rfl, rfl⟩
    rw [applyGain_data_length, hlen, Nat.mul_div_cancel_left k hw]

/-! ### Appending the two-second gap and growing the program -/

/-- Syncing `AudioSegment.silent(2000)` (at pydub's default 11025 Hz rate) to
2 channels, 48 kHz and width `w` yields a segment of exactly 96000 frames:
`audioop.ratecv` interpolates 22050 stereo frames up by the exact ratio
640/147. -/
theorem setSampleWidth_from2 (s : AudioSeg) (w k : ℕ) (hw2 : 2 ≤ w)
    (hs : s.sampleWidth = 2) (hlen : s.data.length = 2 * k) :
    ∃ d' : List ℕ, setSampleWidth s w = ⟨d', w, s.frameRate, s.channels⟩ ∧
      d'.length = w * k := by
  by_cases h : w = 2
  · subst h
    refine ⟨s.data, ?_, by omega⟩
    rw [setSampleWidth_self s hs, ← hs]
  · have hne : s.sampleWidth ≠ w := by omega
    unfold setSampleWidth
    rw [if_neg hne]
    refine ⟨_, rfl, ?_⟩
    rw [toBytes_length, List.length_map, segSamples_length, hs, hlen,
      Nat.mul_div_cancel_left k (by norm_num)]

theorem syncOne_gap (K : Kernels) (w : ℕ) (hw2 : 2 ≤ w) :
    ∃ gd : List ℕ, syncOne K 2 48000 w (silentSeg 2000 11025) = ⟨gd, w, 48000, 2⟩ ∧
      gd.length = w * 192000 := by
  unfold syncOne
  rw [show silentSeg 2000 11025 =
      (⟨List.replicate (2 * 22050) 0, 2, 11025, 1⟩ : AudioSeg) by
    unfold silentSeg
    norm_num]
  rw [setChannels_zeros 11025 2 22050 (Or.inr rfl)]
  have hmid : setFrameRate K ⟨List.replicate (2 * (2 * 22050)) 0, 2, 11025, 2⟩ 48000 =
      ⟨toBytes 2 ((List.range 192000).map
          (K.ratecvVal 11025 48000
            (segSamples ⟨List.replicate (2 * (2 * 22050)) 0, 2, 11025, 2⟩))),
        2, 48000, 2⟩ := by
    unfold setFrameRate
    rw [if_neg (by rw [mk_frameRate]; norm_num)]
    rw [mk_frameRate, mk_sampleWidth, mk_channels, frameCount_replicate]
  rw [hmid]
  obtain ⟨d', hset, hlen'⟩ := setSampleWidth_from2
    ⟨toBytes 2 ((List.range 192000).map
        (K.ratecvVal 11025 48000
          (segSamples ⟨List.replicate (2 * (2 * 22050)) 0, 2, 11025, 2⟩))),
      2, 48000, 2⟩
    w 192000 hw2 rfl (by rw [toBytes_length, List.length_map, List.length_range])
  exact ⟨d', hset, hlen'⟩

/-- Appending the 2-second gap to a processed (stereo, 48 kHz) clip adds
exactly 96000 frames of (interpolated) silence. -/
theorem appendSeg_gap (K : Kernels) (v : AudioSeg)
    (hch : v.channels = 2) (hw2 : 2 ≤ v.sampleWidth) (hfr : v.frameRate = 48000) :
    ∃ gd : List ℕ, appendSeg K v (silentSeg 2000 11025) =
      ⟨v.data ++ gd, v.sampleWidth, 48000, 2⟩ ∧ gd.length = v.sampleWidth * 192000 := by
  obtain ⟨dat, sw, fr, ch⟩ := v
  dsimp only at hch hw2 hfr
  subst hch hfr
  obtain ⟨gd, hgd, hlen⟩ := syncOne_gap K sw hw2
  unfold appendSeg
  rw [show (silentSeg 2000 11025).channels = 1 from rfl,
    show (silentSeg 2000 11025).frameRate = 11025 from rfl,
    show (silentSeg 2000 11025).sampleWidth = 2 from rfl]
  dsimp only
  rw [show max 2 1 = 2 by norm_num, show max 48000 11025 = 48000 by norm_num,
    show max sw 2 = sw from max_eq_left hw2]
  rw [@syncOne_self K 2 48000 sw ⟨dat, sw, 48000, 2⟩ rfl rfl rfl, hgd]
  exact ⟨gd, rfl, hlen⟩

/-- `combined += ...` starting from `AudioSegment.empty()`: the empty
segment synchronises to empty data, so the first append just relabels. -/
theorem appendSeg_empty_left (K : Kernels) (b : AudioSeg)
    (hch : b.channels = 2) (hfr : b.frameRate = 48000) (hw1 : 1 ≤ b.sampleWidth) :
    appendSeg K emptySeg b = ⟨b.data, b.sampleWidth, 48000, 2⟩ := by
  obtain ⟨dat, sw, fr, ch⟩ := b
  dsimp only at hch hfr hw1
  subst hch hfr
  unfold appendSeg emptySeg
  dsimp only
  rw [show max 1 2 = 2 by norm_num, show max 1 48000 = 48000 by norm_num,
    show max 1 sw = sw from max_eq_right hw1]
  rw [@syncOne_self K 2 48000 sw ⟨dat, sw, 48000, 2⟩ rfl rfl rfl]
  have hempty : syncOne K 2 48000 sw ⟨[], 1, 1, 1⟩ = ⟨[], sw, 48000, 2⟩ := by
    unfold syncOne
    have h1 : setChannels ⟨[], 1, 1, 1⟩ 2 = ⟨[], 1, 1, 2⟩ := by
      unfold setChannels
      rw [if_neg (by norm_num), if_pos (by norm_num)]
      rfl
    rw [h1]
    have h2 : setFrameRate K ⟨[], 1, 1, 2⟩ 48000 = ⟨[], 1, 48000, 2⟩ := by
      unfold setFrameRate
      rw [if_neg (by norm_num)]
      rfl
    rw [h2]
    by_cases hsw : sw = 1
    · subst hsw
      rw [setSampleWidth_self _ rfl]
    · unfold setSampleWidth
      dsimp only
      rw [if_neg (Ne.symm hsw)]
      rfl
  rw [hempty]
  rfl

/-- Appending two already-synchronised stereo 48 kHz segments concatenates
their data. -/
theorem appendSeg_both (K : Kernels) (a b : AudioSeg) (w : ℕ)
    (hwa : a.sampleWidth = w) (hwb : b.sampleWidth = w)
    (hca : a.channels = 2) (hcb : b.channels = 2)
    (hfa : a.frameRate = 48000) (hfb : b.frameRate = 48000) :
    appendSeg K a b = ⟨a.data ++ b.data, w, 48000, 2⟩ := by
  unfold appendSeg
  dsimp only
  rw [hca, hcb, hfa, hfb, hwa, hwb, max_self, max_self, max_self,
    @syncOne_self K 2 48000 w a hca hfa hwa,
    @syncOne_self K 2 48000 w b hcb hfb hwb, hwa, hfa, hca]

/-! ### The per-clip chain -/

theorem except_bind_ok {α β γ : Type} (x : β) (f : β → Except α γ) :
    (Except.ok x >>= f : Except α γ) = f x := rfl

theorem except_pure {α β : Type} (x : β) : (pure x : Except α β) = Except.ok x := rfl

/-- A clip of `n ≥ 2` frames (mono, width 2 or 4, at the engine's 48 kHz)
passes the whole per-clip chain.  With `num = ⌊n * 54 / 55⌋` resampled
values, the adapter's int32/width mismatch multiplies the sample count by
`4 / w` at each of its three round trips, so the widener input holds
`F = 64 * num / w^3` samples and the processed clip is a stereo segment of
`min F (48 * round(F/48))` frames. -/
theorem chainOne_ok (K : Kernels) (s : AudioSeg) (w n F : ℕ)
    (hch : s.channels = 1) (hwd : s.sampleWidth = w) (hw : w = 2 ∨ w = 4)
    (hf : s.frameRate = 48000)
    (hlen : s.data.length = w * n) (h2 : 2 ≤ n)
    (h27 : 27 < 4 * (n * 54 / 55) / w)
    (hF : w ^ 3 * F = 64 * (n * 54 / 55)) :
    ∃ v, chainOne K 48000 s = Except.ok v ∧ v.channels = 2 ∧ v.sampleWidth = w ∧
      v.frameRate = 48000 ∧
      v.data.length = w * (2 * (1 * min F (48 * (pyRound ((F : ℚ) / 48)).toNat))) := by
  have hwpos : 0 < w := by rcases hw with rfl | rfl <;> norm_num
  have hw2 : 2 ≤ w := by rcases hw with rfl | rfl <;> norm_num
  obtain ⟨t1, he1, hl1, hw1, hf1, hc1⟩ :=
    pitch_shift_ok K 48000 s n (by rw [hwd]; exact hwpos) (by rw [hwd]; exact hlen) h2
  have hm1 : t1.data.length = t1.sampleWidth * (4 * (n * 54 / 55) / w) := by
    rw [hl1, hw1, hwd]
    rcases hw with rfl | rfl <;> omega
  obtain ⟨t2, he2, hl2, hw2', hf2', hc2'⟩ :=
    apply_deesser_ok_48000 K t1 (1 / 10) (4 * (n * 54 / 55) / w)
      (by rw [hw1, hwd]; exact hwpos) hm1 h27
  obtain ⟨hl3, hw3, hf3, hc3⟩ := add_reverb_meta K 48000 t2 (2 / 5)
  have hm2 : (toNumpy t2).length = 4 * (4 * (n * 54 / 55) / w) / w := by
    rw [toNumpy_length, hl2, hw2', hw1, hwd]
  have hlen3 : (add_reverb K 48000 t2 (2 / 5)).data.length = w * (1 * F) := by
    rw [hl3, hm2]
    rcases hw with rfl | rfl <;> omega
  obtain ⟨hwc, hww, hwf, hwl⟩ := stereo_widen_meta K (add_reverb K 48000 t2 (2 / 5)) 15 1 w F
    hc3 (Or.inl rfl) (by rw [hw3, hw2', hw1, hwd]) hw2 hf3 hlen3
  refine ⟨stereo_widen K (add_reverb K 48000 t2 (2 / 5)) 15, ?_, hwc, hww, hwf, hwl⟩
  simp only [chainOne, he1, except_bind_ok, he2, except_pure]

theorem except_bind_err {α β γ : Type} (e : α) (f : β → Except α γ) :
    (Except.error e >>= f : Except α γ) = Except.error e := rfl

theorem except_map_ok {α β γ : Type} (x : β) (f : β → γ) :
    (Except.ok x : Except α β).map f = Except.ok (f x) := rfl

theorem except_map_err {α β γ : Type} (e : α) (f : β → γ) :
    (Except.error e : Except α β).map f = Except.error e := rfl

/-- An empty clip aborts the chain at the pitch-shift stage with scipy's
FFT `ValueError`, regardless of which clip in the list it is. -/
theorem chainOne_err_empty (K : Kernels) (s : AudioSeg) (h : s.data.length = 0) :
    chainOne K 48000 s = Except.error .fftPoints := by
  simp only [chainOne, pitch_shift_err_empty K 48000 s h, except_bind_err]

theorem processChainGo_nil (K : Kernels) (sr : ℕ) (acc : AudioSeg) :
    processChainGo K sr acc [] = Except.ok acc := rfl

theorem processChainGo_cons_ok (K : Kernels) (sr : ℕ) (acc clip : AudioSeg)
    (rest : List AudioSeg) (v : AudioSeg) (h : chainOne K sr clip = Except.ok v) :
    processChainGo K sr acc (clip :: rest) =
      processChainGo K sr (appendSeg K acc (appendSeg K v (silentSeg 2000 11025))) rest := by
  conv_lhs => unfold processChainGo
  rw [h]

theorem processChainGo_cons_err (K : Kernels) (sr : ℕ) (acc clip : AudioSeg)
    (rest : List AudioSeg) (e : DSPError) (h : chainOne K sr clip = Except.error e) :
    processChainGo K sr acc (clip :: rest) = Except.error e := by
  unfold processChainGo
  rw [h]

/-- A stage failure on any clip makes the whole `process_chain` run fail
with the bare underlying exception. -/
theorem process_chain_err_of_go (K : Kernels) (sr : ℕ) (clips : List AudioSeg)
    (e : DSPError) (h : processChainGo K sr emptySeg clips = Except.error e) :
    process_chain K sr clips = Except.error e := by
  unfold process_chain
  rw [h, except_map_err]

/-- Full run of `process_chain` on three clips whose per-clip chains
succeed: each processed clip contributes its own frames plus the 96000
frames of the resampled 2-second gap, and the final `master_limiter` keeps
the frame count. -/
theorem process_chain_three (K : Kernels) (c1 c2 c3 v1 v2 v3 : AudioSeg)
    (w k1 k2 k3 : ℕ) (hw2 : 2 ≤ w)
    (he1 : chainOne K 48000 c1 = Except.ok v1)
    (hc1 : v1.channels = 2) (hw1 : v1.sampleWidth = w) (hf1 : v1.frameRate = 48000)
    (hl1 : v1.data.length = w * (2 * k1))
    (he2 : chainOne K 48000 c2 = Except.ok v2)
    (hc2 : v2.channels = 2) (hw2' : v2.sampleWidth = w) (hf2 : v2.frameRate = 48000)
    (hl2 : v2.data.length = w * (2 * k2))
    (he3 : chainOne K 48000 c3 = Except.ok v3)
    (hc3 : v3.channels = 2) (hw3 : v3.sampleWidth = w) (hf3 : v3.frameRate = 48000)
    (hl3 : v3.data.length = w * (2 * k3)) :
    ∃ prog, process_chain K 48000 [c1, c2, c3] = Except.ok prog ∧
      prog.channels = 2 ∧ prog.sampleWidth = w ∧ prog.frameRate = 48000 ∧
      frameCount prog = k1 + k2 + k3 + 288000 := by
  have hwpos : 0 < w := by omega
  obtain ⟨g1, hg1e, hg1l⟩ := appendSeg_gap K v1 hc1 (by rw [hw1]; exact hw2) hf1
  obtain ⟨g2, hg2e, hg2l⟩ := appendSeg_gap K v2 hc2 (by rw [hw2']; exact hw2) hf2
  obtain ⟨g3, hg3e, hg3l⟩ := appendSeg_gap K v3 hc3 (by rw [hw3]; exact hw2) hf3
  rw [hw1] at hg1e hg1l
  rw [hw2'] at hg2e hg2l
  rw [hw3] at hg3e hg3l
  have hacc1 : appendSeg K emptySeg ⟨v1.data ++ g1, w, 48000, 2⟩ =
      ⟨v1.data ++ g1, w, 48000, 2⟩ :=
    appendSeg_empty_left K ⟨v1.data ++ g1, w, 48000, 2⟩ rfl rfl (by rw [mk_sampleWidth]; omega)
  have hacc2 : appendSeg K (⟨v1.data ++ g1, w, 48000, 2⟩ : AudioSeg)
      ⟨v2.data ++ g2, w, 48000, 2⟩ =
      ⟨(v1.data ++ g1) ++ (v2.data ++ g2), w, 48000, 2⟩ :=
    appendSeg_both K _ _ w rfl rfl rfl rfl rfl rfl
  have hacc3 : appendSeg K (⟨(v1.data ++ g1) ++ (v2.data ++ g2), w, 48000, 2⟩ : AudioSeg)
      ⟨v3.data ++ g3, w, 48000, 2⟩ =
      ⟨((v1.data ++ g1) ++ (v2.data ++ g2)) ++ (v3.data ++ g3), w, 48000, 2⟩ :=
    appendSeg_both K _ _ w rfl rfl rfl rfl rfl rfl
  have hrun : processChainGo K 48000 emptySeg [c1, c2, c3] =
      Except.ok ⟨((v1.data ++ g1) ++ (v2.data ++ g2)) ++ (v3.data ++ g3), w, 48000, 2⟩ := by
    rw [processChainGo_cons_ok K 48000 _ _ _ _ he1, hg1e, hacc1,
      processChainGo_cons_ok K 48000 _ _ _ _ he2, hg2e, hacc2,
      processChainGo_cons_ok K 48000 _ _ _ _ he3, hg3e, hacc3,
      processChainGo_nil]
  have hlenTot : (((v1.data ++ g1) ++ (v2.data ++ g2)) ++ (v3.data ++ g3)).length =
      w * (2 * (k1 + k2 + k3 + 288000)) := by
    simp only [List.length_append]
    rw [hl1, hl2, hl3, hg1l, hg2l, hg3l]
    ring
  obtain ⟨hml, hmw, hmf, hmc⟩ := master_limiter_meta K
    ⟨((v1.data ++ g1) ++ (v2.data ++ g2)) ++ (v3.data ++ g3), w, 48000, 2⟩ (-16)
    (2 * (k1 + k2 + k3 + 288000)) (by rw [mk_sampleWidth]; exact hwpos)
    (by rw [mk_data, mk_sampleWidth, hlenTot])
  refine ⟨master_limiter K
    ⟨((v1.data ++ g1) ++ (v2.data ++ g2)) ++ (v3.data ++ g3), w, 48000, 2⟩ (-16),
    ?_, ?_, ?_, ?_, ?_⟩
  · unfold process_chain
    rw [hrun, except_map_ok]
  · rw [hmc, mk_channels]
  · rw [hmw, mk_sampleWidth]
  · rw [hmf, mk_frameRate]
  · unfold frameCount frameWidth
    rw [hml, hmw, hmc, mk_data, mk_sampleWidth, mk_channels, hlenTot,
      show w * (2 * (k1 + k2 + k3 + 288000)) = (w * 2) * (k1 + k2 + k3 + 288000) by ring,
      Nat.mul_div_cancel_left _ (by omega)]

/-! ### Content of the widener's channels (mono input) -/

theorem segSamples_in_range (w : ℕ) (hw : 0 < w) : ∀ (k : ℕ) (l : List ℕ),
    l.length = w * k → (∀ b ∈ l, b < 256) →
    ∀ z ∈ parseSamplesN w k l, -(2 ^ (8 * w - 1)) ≤ z ∧ z < 2 ^ (8 * w - 1) := by
  intro k
  induction k with
  | zero => intro l _ _ z hz; simp [parseSamplesN] at hz
  | succ k ih =>
    intro l hlen hv z hz
    rw [parseSamplesN_succ] at hz
    rcases List.mem_cons.mp hz with rfl | hz'
    · have htl : (l.take w).length = w := by
        rw [List.length_take, hlen, Nat.mul_succ]
        omega
      have hrange := intOfBytesLE_range (l.take w) (by omega)
        fun b hb => hv b (List.mem_of_mem_take hb)
      rw [htl] at hrange
      exact hrange
    · exact ih (l.drop w)
        (by rw [List.length_drop, hlen, Nat.mul_succ]; omega)
        (fun b hb => hv b (List.mem_of_mem_drop hb)) z hz'

theorem interleave_mem : ∀ (a b : List ℤ) (z : ℤ), z ∈ interleave a b → z ∈ a ∨ z ∈ b := by
  intro a
  induction a with
  | nil => intro b z hz; simp [interleave] at hz
  | cons x xs ih =>
    intro b z hz
    match b with
    | [] => simp [interleave] at hz
    | y :: ys =>
      simp only [interleave, List.mem_cons] at hz
      rcases hz with rfl | rfl | hz'
      · exact Or.inl (List.mem_cons_self _ _)
      · exact Or.inr (List.mem_cons_self _ _)
      · rcases ih ys z hz' with h | h
        · exact Or.inl (List.mem_cons_of_mem _ h)
        · exact Or.inr (List.mem_cons_of_mem _ h)

/-- For a mono input the widener's left channel is the original signal and
the right channel is the original signal behind `48 * delay` frames of
silence padding, both truncated to `min F (48 * round(F/48))` samples. -/
theorem stereo_widen_mono_content (K : Kernels) (s : AudioSeg) (dms w F : ℕ)
    (hch : s.channels = 1) (hwd : s.sampleWidth = w) (hw : w = 2 ∨ w = 4)
    (hf : s.frameRate = 48000) (hlen : s.data.length = w * F)
    (hvb : ValidBytes s) :
    evensIdx (segSamples (stereo_widen K s dms)) =
      (segSamples s).take (min F (48 * (pyRound ((F : ℚ) / 48)).toNat)) ∧
    oddsIdx (segSamples (stereo_widen K s dms)) =
      (List.replicate (48 * dms) 0 ++ segSamples s).take
        (min F (48 * (pyRound ((F : ℚ) / 48)).toNat)) := by
  have hw2 : 2 ≤ w := by rcases hw with rfl | rfl <;> norm_num
  have hwpos : 0 < w := by omega
  obtain ⟨dat, sw, fr, ch⟩ := s
  dsimp only at hch hwd hf hlen
  subst hch hwd hf
  unfold ValidBytes at hvb
  dsimp only at hvb
  have hP : (48000 : ℕ) * dms / 1000 = 48 * dms := by omega
  have hsil := syncOne_silent K 48000 dms 1 sw (Or.inl rfl) hw2
  rw [hP] at hsil
  have happ : appendSeg K (silentSeg dms 48000) ⟨dat, sw, 48000, 1⟩ =
      ⟨List.replicate (sw * (1 * (48 * dms))) 0 ++ dat, sw, 48000, 1⟩ := by
    unfold appendSeg
    dsimp only [silentSeg]
    rw [show max 1 1 = 1 from max_self _,
      show max (48000 : ℕ) 48000 = 48000 from max_self _,
      show max 2 sw = sw from max_eq_right hw2]
    rw [show silentSeg dms 48000 =
        (⟨List.replicate (48000 * dms / 1000 * 2) 0, 2, 48000, 1⟩ : AudioSeg) from rfl] at hsil
    rw [hsil, @syncOne_self K 1 48000 sw ⟨dat, sw, 48000, 1⟩ rfl rfl rfl]
  have hfc : frameCount ⟨dat, sw, 48000, 1⟩ = F := by
    rw [frameCount_mk, hlen, Nat.mul_one, Nat.mul_div_cancel_left F hwpos]
  have hlm : lenMs ⟨dat, sw, 48000, 1⟩ = pyRound ((F : ℚ) / 48) := by
    unfold lenMs
    dsimp only
    rw [hfc, ms_over_48000]
  have hfc0 : frameCount ⟨List.replicate (sw * (1 * (48 * dms))) 0 ++ dat, sw, 48000, 1⟩ =
      48 * dms + F := by
    rw [frameCount_mk, List.length_append, List.length_replicate, hlen,
      show sw * (1 * (48 * dms)) + sw * F = (sw * 1) * (48 * dms + F) by ring,
      Nat.mul_div_cancel_left _ (by omega)]
  have hlm0 : lenMs ⟨List.replicate (sw * (1 * (48 * dms))) 0 ++ dat, sw, 48000, 1⟩ =
      pyRound (((48 * dms + F : ℕ) : ℚ) / 48) := by
    unfold lenMs
    dsimp only
    rw [hfc0, ms_over_48000]
  have hmono : pyRound ((F : ℚ) / 48) ≤ pyRound (((48 * dms + F : ℕ) : ℚ) / 48) := by
    apply pyRound_mono
    gcongr
    push_cast
    omega
  have hM0 : 0 ≤ pyRound ((F : ℚ) / 48) := pyRound_nonneg _ (by positivity)
  have hslice : sliceUpTo ⟨List.replicate (sw * (1 * (48 * dms))) 0 ++ dat, sw, 48000, 1⟩
        (lenMs ⟨dat, sw, 48000, 1⟩) =
      ⟨(List.replicate (sw * (1 * (48 * dms))) 0 ++ dat).take
          (48 * (pyRound ((F : ℚ) / 48)).toNat * (sw * 1)), sw, 48000, 1⟩ := by
    unfold sliceUpTo
    rw [hlm, hlm0]
    rw [min_eq_left hmono]
    unfold frameWidth
    dsimp only
    rw [show (pyRound ((F : ℚ) / 48)).toNat * 48000 / 1000 =
        48 * (pyRound ((F : ℚ) / 48)).toNat by omega]
  simp only [stereo_widen]
  rw [happ, hslice]
  set M : ℕ := (pyRound ((F : ℚ) / 48)).toNat with hM
  set L : List ℕ := List.replicate (sw * (1 * (48 * dms))) 0 ++ dat with hL
  have hLlen : L.length = sw * (48 * dms + F) := by
    rw [hL, List.length_append, List.length_replicate, hlen]
    ring
  have hlS : (segSamples ⟨dat, sw, 48000, 1⟩).length = F := by
    rw [segSamples_length]
    dsimp only
    rw [hlen, Nat.mul_div_cancel_left _ hwpos]
  have hsplit : parseSamplesN sw (48 * dms + F) L =
      List.replicate (48 * dms) 0 ++ segSamples ⟨dat, sw, 48000, 1⟩ := by
    rw [hL, parseSamplesN_append_exact sw (48 * dms) F _ dat
        (by rw [List.length_replicate]; ring),
      parseSamplesN_replicate_zero, segSamples_mk]
    unfold parseSamples
    rw [hlen, Nat.mul_div_cancel_left _ hwpos]
  have htakelen : (L.take (48 * M * (sw * 1))).length =
      sw * min (48 * M) (48 * dms + F) := by
    rw [List.length_take, hLlen,
      show 48 * M * (sw * 1) = sw * (48 * M) by ring, nat_mul_min sw _ _]
  have hrS : segSamples ⟨L.take (48 * M * (sw * 1)), sw, 48000, 1⟩ =
      (List.replicate (48 * dms) 0 ++ segSamples ⟨dat, sw, 48000, 1⟩).take
        (min (48 * M) (48 * dms + F)) := by
    rw [segSamples_mk]
    unfold parseSamples
    rw [htakelen, Nat.mul_div_cancel_left _ hwpos, ← hsplit]
    rcases le_or_lt (48 * M) (48 * dms + F) with hc | hc
    · rw [min_eq_left hc,
        show 48 * M * (sw * 1) = sw * (48 * M) by ring,
        parseSamplesN_take sw (48 * M) L,
        parseSamplesN_prefix sw (48 * M) (48 * dms + F) L hc]
    · rw [min_eq_right (le_of_lt hc),
        show L.take (48 * M * (sw * 1)) = L from
          List.take_of_length_le (by
            rw [hLlen, show 48 * M * (sw * 1) = sw * (48 * M) by ring]
            exact Nat.mul_le_mul_left sw (by omega)),
        List.take_of_length_le (le_of_eq (parseSamplesN_length sw (48 * dms + F) L))]
  rw [hrS, hlS]
  have hrlen : ((List.replicate (48 * dms) 0 ++
      segSamples ⟨dat, sw, 48000, 1⟩).take (min (48 * M) (48 * dms + F))).length =
      min (48 * M) (48 * dms + F) := by
    rw [List.length_take, List.length_append, List.length_replicate, hlS]
    omega
  rw [hrlen]
  have hn : min F (min (48 * M) (48 * dms + F)) = min F (48 * M) := by omega
  rw [hn]
  have hlen_take_l : ((segSamples ⟨dat, sw, 48000, 1⟩).take (min F (48 * M))).length =
      min F (48 * M) := by
    rw [List.length_take, hlS]
    omega
  have hlen_take_r : (((List.replicate (48 * dms) 0 ++
      segSamples ⟨dat, sw, 48000, 1⟩).take (min (48 * M) (48 * dms + F))).take
        (min F (48 * M))).length = min F (48 * M) := by
    rw [List.length_take, hrlen]
    omega
  have hinter : segSamples ⟨toBytes sw (interleave
      ((segSamples ⟨dat, sw, 48000, 1⟩).take (min F (48 * M)))
      (((List.replicate (48 * dms) 0 ++ segSamples ⟨dat, sw, 48000, 1⟩).take
          (min (48 * M) (48 * dms + F))).take (min F (48 * M)))), sw, 48000, 2⟩ =
      interleave
        ((segSamples ⟨dat, sw, 48000, 1⟩).take (min F (48 * M)))
        (((List.replicate (48 * dms) 0 ++ segSamples ⟨dat, sw, 48000, 1⟩).take
            (min (48 * M) (48 * dms + F))).take (min F (48 * M))) := by
    rw [segSamples_mk]
    apply parseSamples_toBytes_of_range sw hwpos
    intro z hz
    have hmem := interleave_mem _ _ z hz
    have hrange_l : ∀ x ∈ segSamples ⟨dat, sw, 48000, 1⟩,
        -(2 ^ (8 * sw - 1)) ≤ x ∧ x < 2 ^ (8 * sw - 1) := by
      intro x hx
      rw [segSamples_mk] at hx
      unfold parseSamples at hx
      rw [hlen, Nat.mul_div_cancel_left _ hwpos] at hx
      exact segSamples_in_range sw hwpos F dat hlen hvb x hx
    rcases hmem with hml | hmr
    · exact hrange_l z (List.mem_of_mem_take hml)
    · have hz' := List.mem_of_mem_take (List.mem_of_mem_take hmr)
      rcases List.mem_append.mp hz' with h0 | hs
      · have : z = 0 := List.eq_of_mem_replicate h0
        subst this
        constructor
        · have : (0 : ℤ) < 2 ^ (8 * sw - 1) := by positivity
          omega
        · positivity
      · exact hrange_l z hs
  rw [hinter]
  constructor
  · rw [evensIdx_interleave _ _ (by rw [hlen_take_l, hlen_take_r])]
  · rw [oddsIdx_interleave _ _ (by rw [hlen_take_l, hlen_take_r])]
    rw [List.take_take]
    rw [show min (min F (48 * M)) (min (48 * M) (48 * dms + F)) = min F (48 * M) by omega]

/-! ### Claim theorems -/

/-- C10: for every buffer and any two target loudness values, `master_limiter`
returns the same result — the `target_lufs` parameter is used only in a log
message — and that result is always pydub `normalize` with the fixed 0.1 dB
headroom. -/
theorem C10_limiter_ignores_target (K : Kernels) (audio : AudioSeg) (L1 L2 : ℚ) :
    master_limiter K audio L1 = master_limiter K audio L2 ∧
    master_limiter K audio L1 = pydubNormalize K audio (1 / 10) :=
  ⟨rfl, rfl⟩

/-- C8 (amended): on an all-zero buffer `master_limiter` does not fail with
`SilentBufferError`; pydub's `normalize` takes its `max == 0` early-return
branch and the buffer is returned unchanged. -/
theorem C8_silent_normalize_amended (K : Kernels) (audio : AudioSeg) (L : ℚ)
    (h : ∀ z ∈ segSamples audio, z = 0) :
    master_limiter K audio L = audio := by
  unfold master_limiter
  exact pydubNormalize_zero_peak K audio _ (maxAbs_of_all_zero audio h)

/-- C8 (witness): the amended statement at a concrete all-zero 32-bit buffer. -/
theorem C8_silent_normalize_witness :
    master_limiter K0 ⟨List.replicate 16 0, 4, 48000, 1⟩ (-16) =
      ⟨List.replicate 16 0, 4, 48000, 1⟩ :=
  C8_silent_normalize_amended K0 ⟨List.replicate 16 0, 4, 48000, 1⟩ (-16) (by decide)

/-- C8 (counterexample): a concrete all-zero 16-bit buffer is returned
unchanged by `master_limiter` — the claimed `SilentBufferError` failure does
not occur (no error path exists in the code). -/
theorem C8_silent_normalize_cx :
    master_limiter K0 ⟨List.replicate 8 0, 2, 48000, 1⟩ (-16) =
      ⟨List.replicate 8 0, 2, 48000, 1⟩ := by
  decide

/-- C2 (code bug): on a zero-length buffer `pitch_shift_432hz` does not
return an empty buffer — `scipy.signal.resample` raises a `ValueError`
(invalid number of FFT data points), although the specification requires
empty in, empty out, no error. -/
theorem C2_pitch_empty_raises :
    pitch_shift_432hz K0 48000 ⟨[], 2, 48000, 1⟩ = Except.error DSPError.fftPoints := by
  rfl

/-- C3 (code bug): the adapter round trip on the one-sample 16-bit buffer
`[1/2]` returns two samples, `[16383/32768, 0]` — `_to_audio_segment`
serialises int32 words but labels them with the original 2-byte width, so
decoding reads each sample as two 16-bit halves instead of reproducing the
input within quantisation error. -/
theorem C3_roundtrip_16bit_broken :
    toNumpy (toAudioSegment 48000 [1 / 2] ⟨[], 2, 48000, 1⟩) = [16383 / 32768, 0] ∧
    (toNumpy (toAudioSegment 48000 [1 / 2] ⟨[], 2, 48000, 1⟩)).length ≠
      ([1 / 2] : List ℚ).length := by
  have hseg : toAudioSegment 48000 [1 / 2] ⟨[], 2, 48000, 1⟩ =
      ⟨[255, 63, 0, 0], 2, 48000, 1⟩ := by
    unfold toAudioSegment
    rw [mk_sampleWidth]
    rw [show ([1 / 2] : List ℚ).map
        (fun x => int32wrap (ratTrunc (x * (2 ^ (8 * 2 - 1) - 1)))) = [16383] by
      rw [List.map_singleton]
      have ht : ratTrunc ((1 / 2 : ℚ) * (2 ^ (8 * 2 - 1) - 1)) = 16383 := by
        rw [ratTrunc_of_nonneg _ (by norm_num), Int.floor_eq_iff]
        constructor <;> norm_num
      rw [ht]
      rfl]
    rw [show toBytes 4 [16383] = [255, 63, 0, 0] by rfl]
  rw [hseg]
  constructor
  · have hsam : segSamples ⟨[255, 63, 0, 0], 2, 48000, 1⟩ = [16383, 0] := by decide
    unfold toNumpy
    rw [hsam, mk_sampleWidth]
    simp only [List.map_cons, List.map_nil]
    norm_num
  · rw [toNumpy_length, mk_data, mk_sampleWidth]
    simp

/-- C5 (amended): `apply_deesser` exposes no ratio or band parameters (the
ratio is the literal 6 and the band the literal 4–8 kHz), so no
`InvalidParameterError` path exists; whenever the band's upper edge reaches
Nyquist (engine rate at most 16 kHz) it fails with scipy `butter`'s generic
critical-frequency `ValueError` rather than `InvalidBandError`. -/
theorem C5_deesser_errors_amended (K : Kernels) (sr : ℕ) (audio : AudioSeg)
    (threshold : ℚ) (h0 : 0 < sr) (h16 : sr ≤ 16000) :
    apply_deesser K sr audio threshold = Except.error DSPError.butterBand :=
  apply_deesser_err_lowrate K sr audio threshold h0 h16

/-- C5 (witness): the amended statement at a 16 kHz engine, where the band's
upper edge sits exactly at Nyquist. -/
theorem C5_deesser_errors_witness :
    apply_deesser K0 16000 ⟨[0, 0], 2, 16000, 1⟩ (1 / 10) =
      Except.error DSPError.butterBand :=
  C5_deesser_errors_amended K0 16000 ⟨[0, 0], 2, 16000, 1⟩ (1 / 10)
    (by norm_num) (by norm_num)

/-- C5 (counterexample): with the band's upper edge at Nyquist the de-esser
fails with the generic scipy error, which is not the `InvalidBandError` the
claim requires (and no ratio argument exists through which `ratio ≤ 1`
could be supplied). -/
theorem C5_deesser_errors_cx :
    apply_deesser K0 16000 ⟨[0, 0, 0, 0], 2, 16000, 1⟩ (1 / 10) =
      Except.error DSPError.butterBand ∧
    DSPError.butterBand ≠ DSPError.invalidBandError :=
  ⟨apply_deesser_err_lowrate K0 16000 _ _ (by norm_num) (by norm_num), by decide⟩

/-- C6 (amended): `stereo_widen` performs no channel-layout validation and
has no failure path: on an already-stereo 16-bit 48 kHz input of `F` frames
it returns a (corrupted) declared-stereo segment whose frame count is
`2 * min F (48 * round(F/48))` — roughly twice the input's frame count —
instead of failing with `UnsupportedChannelLayoutError`. -/
theorem C6_stereo_widen_no_failure_amended (K : Kernels) (audio : AudioSeg) (F : ℕ)
    (hch : audio.channels = 2) (hwd : audio.sampleWidth = 2)
    (hf : audio.frameRate = 48000) (hlen : audio.data.length = 2 * (2 * F)) :
    (stereo_widen K audio 15).channels = 2 ∧
    (stereo_widen K audio 15).frameRate = 48000 ∧
    frameCount (stereo_widen K audio 15) =
      2 * min F (48 * (pyRound ((F : ℚ) / 48)).toNat) := by
  obtain ⟨hc', hw', hf', hl'⟩ :=
    stereo_widen_meta K audio 15 2 2 F hch (Or.inr rfl) hwd le_rfl hf hlen
  refine ⟨hc', hf', ?_⟩
  unfold frameCount frameWidth
  rw [hl', hw', hc']
  omega

/-- C6 (witness): the amended statement at a concrete 48-frame stereo
segment. -/
theorem C6_stereo_widen_no_failure_witness :
    (stereo_widen K0 ⟨List.replicate 192 0, 2, 48000, 2⟩ 15).channels = 2 ∧
    (stereo_widen K0 ⟨List.replicate 192 0, 2, 48000, 2⟩ 15).frameRate = 48000 ∧
    frameCount (stereo_widen K0 ⟨List.replicate 192 0, 2, 48000, 2⟩ 15) =
      2 * min 48 (48 * (pyRound ((48 : ℕ) / 48 : ℚ)).toNat) :=
  C6_stereo_widen_no_failure_amended K0 ⟨List.replicate 192 0, 2, 48000, 2⟩ 48
    rfl rfl rfl (by rw [mk_data, List.length_replicate])

/-- C6 (counterexample): on a concrete stereo input `stereo_widen` returns a
well-defined 2-channel segment (of 96 frames — the input's interleaved
stream re-widened) rather than failing with
`UnsupportedChannelLayoutError`, refuting "always fails". -/
theorem C6_stereo_widen_no_failure_cx :
    (stereo_widen K0 ⟨List.replicate 192 0, 2, 48000, 2⟩ 15).channels = 2 ∧
    frameCount (stereo_widen K0 ⟨List.replicate 192 0, 2, 48000, 2⟩ 15) = 96 := by
  obtain ⟨hc', hw', hf', hl'⟩ :=
    stereo_widen_meta K0 ⟨List.replicate 192 0, 2, 48000, 2⟩ 15 2 2 48
      rfl (Or.inr rfl) rfl le_rfl rfl (by rw [mk_data, List.length_replicate])
  refine ⟨hc', ?_⟩
  unfold frameCount frameWidth
  rw [hl', hw', hc', show pyRound ((48 : ℕ) / 48 : ℚ) = 1 from
    pyRound_eq_of_lt_half _ 1 (by push_cast; norm_num) (by push_cast; norm_num)]
  norm_num

/-- C4 (amended): with `wetMix = 0` the wet/dry mix is exactly the dry float
signal (identity at the processing-buffer level); the returned segment is
that signal re-quantised through the adapter, whose frame count matches the
input's for 4-byte-wide mono data (for 16-bit data the adapter's
int32/width mismatch doubles it). -/
theorem C4_reverb_dry_identity_amended (K : Kernels) (sr : ℕ) (audio : AudioSeg) (n : ℕ)
    (hch : audio.channels = 1) (hwd : audio.sampleWidth = 4)
    (hlen : audio.data.length = 4 * n) :
    reverbMix K sr 0 (toNumpy audio) = toNumpy audio ∧
    frameCount (add_reverb K sr audio 0) = frameCount audio ∧
    (add_reverb K sr audio 0).channels = 1 := by
  refine ⟨reverbMix_zero K sr _, ?_, (add_reverb_meta K sr audio 0).2.2.2⟩
  obtain ⟨hl, hw, hf, hc⟩ := add_reverb_meta K sr audio 0
  unfold frameCount frameWidth
  rw [hl, hw, hc, toNumpy_length, hwd, hlen, hch]
  omega

/-- C4 (witness): the amended statement at a concrete two-frame 32-bit
buffer. -/
theorem C4_reverb_dry_identity_witness :
    reverbMix K0 48000 0 (toNumpy ⟨List.replicate 8 0, 4, 48000, 1⟩) =
      toNumpy ⟨List.replicate 8 0, 4, 48000, 1⟩ ∧
    frameCount (add_reverb K0 48000 ⟨List.replicate 8 0, 4, 48000, 1⟩ 0) =
      frameCount ⟨List.replicate 8 0, 4, 48000, 1⟩ ∧
    (add_reverb K0 48000 ⟨List.replicate 8 0, 4, 48000, 1⟩ 0).channels = 1 :=
  C4_reverb_dry_identity_amended K0 48000 ⟨List.replicate 8 0, 4, 48000, 1⟩ 2
    rfl rfl (by rw [mk_data, List.length_replicate])

/-- C4 (counterexample): on a one-frame 16-bit segment, `add_reverb` with
`wetMix = 0` returns a segment of two frames, not the unchanged one-frame
dry signal — the output length does not equal the input length. -/
theorem C4_reverb_dry_identity_cx :
    frameCount (add_reverb K0 48000 ⟨[0, 64], 2, 48000, 1⟩ 0) = 2 ∧
    frameCount ⟨[0, 64], 2, 48000, 1⟩ = 1 := by
  obtain ⟨hl, hw, hf, hc⟩ := add_reverb_meta K0 48000 ⟨[0, 64], 2, 48000, 1⟩ 0
  constructor
  · unfold frameCount frameWidth
    rw [hl, hw, hc, toNumpy_length, mk_data, mk_sampleWidth]
    simp
  · decide

/-- C7 (amended): for a mono 16-bit 48 kHz input of `F` frames the widener
returns a 2-channel segment; the left channel is the original signal and
the right channel the original signal behind `48 * delay` frames of silence
padding, but both are truncated to `min F (48 * round(F/48))` samples — the
input count rounded to pydub's integer-millisecond slicing grid (within
half a millisecond), not exactly `F`. -/
theorem C7_widen_mono_amended (K : Kernels) (audio : AudioSeg) (delayMs F : ℕ)
    (hch : audio.channels = 1) (hwd : audio.sampleWidth = 2)
    (hf : audio.frameRate = 48000) (hlen : audio.data.length = 2 * F)
    (hvb : ValidBytes audio) :
    (stereo_widen K audio delayMs).channels = 2 ∧
    frameCount (stereo_widen K audio delayMs) =
      min F (48 * (pyRound ((F : ℚ) / 48)).toNat) ∧
    evensIdx (segSamples (stereo_widen K audio delayMs)) =
      (segSamples audio).take (min F (48 * (pyRound ((F : ℚ) / 48)).toNat)) ∧
    oddsIdx (segSamples (stereo_widen K audio delayMs)) =
      (List.replicate (48 * delayMs) 0 ++ segSamples audio).take
        (min F (48 * (pyRound ((F : ℚ) / 48)).toNat)) := by
  obtain ⟨hc', hw', hf', hl'⟩ := stereo_widen_meta K audio delayMs 1 2 F hch
    (Or.inl rfl) hwd le_rfl hf (by rw [hlen, Nat.one_mul])
  obtain ⟨hev, hod⟩ := stereo_widen_mono_content K audio delayMs 2 F hch hwd
    (Or.inl rfl) hf hlen hvb
  refine ⟨hc', ?_, hev, hod⟩
  unfold frameCount frameWidth
  rw [hl', hw', hc']
  omega

/-- C7 (witness): the amended statement at a concrete 96-frame mono
segment with the default 15 ms delay. -/
theorem C7_widen_mono_witness :
    (stereo_widen K0 ⟨List.replicate 192 0, 2, 48000, 1⟩ 15).channels = 2 ∧
    frameCount (stereo_widen K0 ⟨List.replicate 192 0, 2, 48000, 1⟩ 15) =
      min 96 (48 * (pyRound ((96 : ℕ) / 48 : ℚ)).toNat) ∧
    evensIdx (segSamples (stereo_widen K0 ⟨List.replicate 192 0, 2, 48000, 1⟩ 15)) =
      (segSamples ⟨List.replicate 192 0, 2, 48000, 1⟩).take
        (min 96 (48 * (pyRound ((96 : ℕ) / 48 : ℚ)).toNat)) ∧
    oddsIdx (segSamples (stereo_widen K0 ⟨List.replicate 192 0, 2, 48000, 1⟩ 15)) =
      (List.replicate (48 * 15) 0 ++ segSamples ⟨List.replicate 192 0, 2, 48000, 1⟩).take
        (min 96 (48 * (pyRound ((96 : ℕ) / 48 : ℚ)).toNat)) :=
  C7_widen_mono_amended K0 ⟨List.replicate 192 0, 2, 48000, 1⟩ 15 96 rfl rfl rfl
    (by rw [mk_data, List.length_replicate])
    (fun b hb => by rw [List.eq_of_mem_replicate hb]; norm_num)

/-- C7 (counterexample): a 1010-frame mono input (about 21.04 ms, so the
15 ms delay is shorter than the buffer and hence a valid delay) yields only
1008 frames per channel — `len(segment)` rounds 1010 frames down to 21 ms
and the slice truncates to 48·21 frames — so the per-channel sample count
does not equal the input's. -/
theorem C7_widen_mono_cx :
    frameCount (stereo_widen K0 ⟨List.replicate 2020 0, 2, 48000, 1⟩ 15) = 1008 ∧
    frameCount ⟨List.replicate 2020 0, 2, 48000, 1⟩ = 1010 := by
  obtain ⟨hc', hw', hf', hl'⟩ := stereo_widen_meta K0 ⟨List.replicate 2020 0, 2, 48000, 1⟩
    15 1 2 1010 rfl (Or.inl rfl) rfl le_rfl rfl (by rw [mk_data, List.length_replicate])
  constructor
  · unfold frameCount frameWidth
    rw [hl', hw', hc', show pyRound ((1010 : ℕ) / 48 : ℚ) = 21 from
      pyRound_eq_of_lt_half _ 21 (by push_cast; norm_num) (by push_cast; norm_num)]
    omega
  · rw [frameCount_replicate]

/-- C9 (amended): when any stage fails on any clip, the whole run fails and
stage 3 of `run_pipeline` writes no Program file: the export happens only
after `process_chain` returns successfully. -/
theorem C9_failure_no_output_amended (K : Kernels) (sr : ℕ) (clips : List AudioSeg)
    (e : DSPError) (h : process_chain K sr clips = Except.error e) :
    stage3Written K sr clips = [] := by
  unfold stage3Written
  rw [h]

/-- C9 (witness): the amended statement on a run whose single clip is empty
and therefore fails at the pitch-shift stage. -/
theorem C9_failure_no_output_witness :
    stage3Written K0 48000 [⟨[], 2, 48000, 1⟩] = [] :=
  C9_failure_no_output_amended K0 48000 [⟨[], 2, 48000, 1⟩] DSPError.fftPoints rfl

/-- C9 (counterexample): two runs that fail at different clip indices (the
first clip vs the second clip of three) surface the identical bare scipy
exception — the failure report carries neither the failing clip index nor a
stage name, contradicting the claim that it identifies them. -/
theorem C9_failure_no_output_cx :
    process_chain K0 48000
      [⟨[], 2, 48000, 1⟩, ⟨List.replicate 60 0, 2, 48000, 1⟩,
        ⟨List.replicate 60 0, 2, 48000, 1⟩] = Except.error DSPError.fftPoints ∧
    process_chain K0 48000
      [⟨List.replicate 60 0, 2, 48000, 1⟩, ⟨[], 2, 48000, 1⟩,
        ⟨List.replicate 60 0, 2, 48000, 1⟩] = Except.error DSPError.fftPoints := by
  constructor
  · exact process_chain_err_of_go K0 48000 _ _
      (processChainGo_cons_err K0 48000 _ _ _ _ (chainOne_err_empty K0 _ rfl))
  · obtain ⟨v, hv, -, -, -, -⟩ := chainOne_ok K0 ⟨List.replicate 60 0, 2, 48000, 1⟩ 2 30 232
      rfl rfl (Or.inl rfl) rfl (by rw [mk_data, List.length_replicate]) (by norm_num)
      (by norm_num) (by norm_num)
    apply process_chain_err_of_go
    rw [processChainGo_cons_ok K0 48000 _ _ _ _ hv]
    exact processChainGo_cons_err K0 48000 _ _ _ _ (chainOne_err_empty K0 _ rfl)

/-- C1 (amended): for three mono 32-bit clips of 10, 8 and 12 seconds at
48 kHz (480000, 384000 and 576000 frames), `process_chain` produces a
stereo 48 kHz Program of exactly 1701809 frames ≈ 35.454 s: the nominal
36 s (clips plus three 2-second gaps) shortened by the 432/440 resampling
of each clip (and sub-millisecond slicing truncation), a drift of
26191/48000 ≈ 0.546 s, bounded here by 11/20 s. -/
theorem C1_program_duration_amended (K : Kernels) (c1 c2 c3 : AudioSeg)
    (h1c : c1.channels = 1) (h1w : c1.sampleWidth = 4) (h1f : c1.frameRate = 48000)
    (h1l : c1.data.length = 4 * 480000)
    (h2c : c2.channels = 1) (h2w : c2.sampleWidth = 4) (h2f : c2.frameRate = 48000)
    (h2l : c2.data.length = 4 * 384000)
    (h3c : c3.channels = 1) (h3w : c3.sampleWidth = 4) (h3f : c3.frameRate = 48000)
    (h3l : c3.data.length = 4 * 576000) :
    ∃ prog, process_chain K 48000 [c1, c2, c3] = Except.ok prog ∧
      prog.channels = 2 ∧ prog.frameRate = 48000 ∧
      frameCount prog = 1701809 ∧
      |((frameCount prog : ℚ) / 48000) - 36| ≤ 11 / 20 := by
  have hpy1 : pyRound (((471272 : ℕ) : ℚ) / 48) = 9818 :=
    pyRound_eq_of_lt_half _ 9818 (by push_cast; norm_num) (by push_cast; norm_num)
  have hpy2 : pyRound (((377018 : ℕ) : ℚ) / 48) = 7855 :=
    pyRound_eq_of_gt_half _ 7854 (by push_cast; norm_num) (by push_cast; norm_num)
  have hpy3 : pyRound (((565527 : ℕ) : ℚ) / 48) = 11782 :=
    pyRound_eq_of_gt_half _ 11781 (by push_cast; norm_num) (by push_cast; norm_num)
  obtain ⟨v1, he1, hc1, hw1, hf1, hl1⟩ := chainOne_ok K c1 4 480000 471272
    h1c h1w (Or.inr rfl) h1f h1l (by norm_num) (by norm_num) (by norm_num)
  obtain ⟨v2, he2, hc2, hw2, hf2, hl2⟩ := chainOne_ok K c2 4 384000 377018
    h2c h2w (Or.inr rfl) h2f h2l (by norm_num) (by norm_num) (by norm_num)
  obtain ⟨v3, he3, hc3, hw3, hf3, hl3⟩ := chainOne_ok K c3 4 576000 565527
    h3c h3w (Or.inr rfl) h3f h3l (by norm_num) (by norm_num) (by norm_num)
  rw [hpy1] at hl1
  rw [hpy2] at hl2
  rw [hpy3] at hl3
  have hl1' : v1.data.length = 4 * (2 * 471264) := by rw [hl1]; omega
  have hl2' : v2.data.length = 4 * (2 * 377018) := by rw [hl2]; omega
  have hl3' : v3.data.length = 4 * (2 * 565527) := by rw [hl3]; omega
  obtain ⟨prog, hrun, hpc, hpw, hpf, hcount⟩ := process_chain_three K c1 c2 c3 v1 v2 v3
    4 471264 377018 565527 (by norm_num) he1 hc1 hw1 hf1 hl1'
    he2 hc2 hw2 hf2 hl2' he3 hc3 hw3 hf3 hl3'
  refine ⟨prog, hrun, hpc, hpf, ?_, ?_⟩
  · rw [hcount]
  · rw [hcount]
    rw [abs_le]
    constructor
    · push_cast
      norm_num
    · push_cast
      norm_num

/-- C1 (witness): the amended statement at three concrete zero-valued
32-bit clips of 10, 8 and 12 seconds. -/
theorem C1_program_duration_witness :
    ∃ prog, process_chain K0 48000
      [⟨List.replicate 1920000 0, 4, 48000, 1⟩, ⟨List.replicate 1536000 0, 4, 48000, 1⟩,
        ⟨List.replicate 2304000 0, 4, 48000, 1⟩] = Except.ok prog ∧
      prog.channels = 2 ∧ prog.frameRate = 48000 ∧
      frameCount prog = 1701809 ∧
      |((frameCount prog : ℚ) / 48000) - 36| ≤ 11 / 20 :=
  C1_program_duration_amended K0 _ _ _
    rfl rfl rfl (by rw [mk_data, List.length_replicate])
    rfl rfl rfl (by rw [mk_data, List.length_replicate])
    rfl rfl rfl (by rw [mk_data, List.length_replicate])

/-- C1 (counterexample): for three 16-bit clips of the very same durations
(10, 8 and 12 seconds, mono, 48 kHz), the adapter's int32/width mismatch
doubles the sample count at each of the three per-clip adapter round trips,
and the Program comes out at 11598480 frames ≈ 241.6 s — nowhere near 36 s,
far beyond any resampling-induced drift. -/
theorem C1_program_duration_cx :
    ∃ prog, process_chain K0 48000
      [⟨List.replicate 960000 0, 2, 48000, 1⟩, ⟨List.replicate 768000 0, 2, 48000, 1⟩,
        ⟨List.replicate 1152000 0, 2, 48000, 1⟩] = Except.ok prog ∧
      frameCount prog = 11598480 ∧
      ¬ |((frameCount prog : ℚ) / 48000) - 36| ≤ 1 := by
  have hpy1 : pyRound (((3770176 : ℕ) : ℚ) / 48) = 78545 :=
    pyRound_eq_of_lt_half _ 78545 (by push_cast; norm_num) (by push_cast; norm_num)
  have hpy2 : pyRound (((3016144 : ℕ) : ℚ) / 48) = 62836 :=
    pyRound_eq_of_lt_half _ 62836 (by push_cast; norm_num) (by push_cast; norm_num)
  have hpy3 : pyRound (((4524216 : ℕ) : ℚ) / 48) = 94254 :=
    pyRound_eq_of_half_even _ 94254 (by push_cast; norm_num) (by decide)
  obtain ⟨v1, he1, hc1, hw1, hf1, hl1⟩ := chainOne_ok K0
    ⟨List.replicate 960000 0, 2, 48000, 1⟩ 2 480000 3770176
    rfl rfl (Or.inl rfl) rfl (by rw [mk_data, List.length_replicate])
    (by norm_num) (by norm_num) (by norm_num)
  obtain ⟨v2, he2, hc2, hw2, hf2, hl2⟩ := chainOne_ok K0
    ⟨List.replicate 768000 0, 2, 48000, 1⟩ 2 384000 3016144
    rfl rfl (Or.inl rfl) rfl (by rw [mk_data, List.length_replicate])
    (by norm_num) (by norm_num) (by norm_num)
  obtain ⟨v3, he3, hc3, hw3, hf3, hl3⟩ := chainOne_ok K0
    ⟨List.replicate 1152000 0, 2, 48000, 1⟩ 2 576000 4524216
    rfl rfl (Or.inl rfl) rfl (by rw [mk_data, List.length_replicate])
    (by norm_num) (by norm_num) (by norm_num)
  rw [hpy1] at hl1
  rw [hpy2] at hl2
  rw [hpy3] at hl3
  have hl1' : v1.data.length = 2 * (2 * 3770160) := by rw [hl1]; omega
  have hl2' : v2.data.length = 2 * (2 * 3016128) := by rw [hl2]; omega
  have hl3' : v3.data.length = 2 * (2 * 4524192) := by rw [hl3]; omega
  obtain ⟨prog, hrun, hpc, hpw, hpf, hcount⟩ := process_chain_three K0 _ _ _ v1 v2 v3
    2 3770160 3016128 4524192 (by norm_num) he1 hc1 hw1 hf1 hl1'
    he2 hc2 hw2 hf2 hl2' he3 hc3 hw3 hf3 hl3'
  refine ⟨prog, hrun, ?_, ?_⟩
  · rw [hcount]
  · rw [hcount]
    rw [abs_le]
    push_cast
    intro hcontra
    have := hcontra.2
    norm_num at this

end SoakDSP
